import Mathlib

/-!
DistanceFieldGen: the voxel layout, the quantiser, the normaliser, the command line
and the atlas decoder.

A shallow embedding of the two programs of the repository:

* the generator (`src/main.cpp`): the triple loop of `main` that fills the
  `N*N*N` byte buffer, its index arithmetic in 32-bit `int`, the quantisation
  of a distance into a byte, `computeAABB` and the normalisation of the
  vertices in `CGALBuilder::operator()`, and the control flow of `main` from
  the command line to the outcome of the run;
* the viewer (`src/example/main.cpp`): the texture upload of `setup` and the
  GLSL functions `sampleDistanceField` and `march`.

Conventions.  C++ `int` values are modelled as `Int`, every arithmetic
operation on them being followed by `wrapInt32` (two's complement wrap-around).
Floating point values are modelled in exact arithmetic over a linearly ordered
field with a floor function; the square root is a parameter `sqrt` of the
definitions that use it, and the theorems state which of its properties they
rely on.  Where infinities matter (the bounding box), a float is a value of
`Ext`: finite, plus or minus infinity, or NaN.  The libraries `main` calls
(file system, `std::stoi`, the importer, the polyhedron builder) are the
fields of `Env`.
-/

namespace DistanceFieldGen

/-! ## Generator: index arithmetic and the voxel loop (`src/main.cpp`) -/

/-- Value of a C++ `int` (32 bits, two's complement) holding the exact result `v`. -/
def wrapInt32 (v : Int) : Int := (v + 2147483648) % 4294967296 - 2147483648

/-- Line 202 of `main`:
`index = y*k_distanceFieldSize*k_distanceFieldSize + z*k_distanceFieldSize + x`,
evaluated left to right in `int`. -/
def voxelIndex (N x y z : Int) : Int :=
  wrapInt32 (wrapInt32 (wrapInt32 (wrapInt32 (y * N) * N) + wrapInt32 (z * N)) + x)

/-- Lines 191 and 213 of `main`: the element count
`k_distanceFieldSize * k_distanceFieldSize * k_distanceFieldSize`, computed in `int`;
it is both the size of the allocation and the number of bytes handed to `write`. -/
def bufferSize (N : Int) : Int := wrapInt32 (wrapInt32 (N * N) * N)

/-- Lines 194-196 of `main`: the voxels `(x, y, z)` in the order the loop nest visits
them, `y` outermost, `z` in the middle, `x` innermost. -/
def voxelLoop (N : Nat) : List (Nat × Nat × Nat) :=
  (List.range N).flatMap fun y =>
    (List.range N).flatMap fun z =>
      (List.range N).map fun x => (x, y, z)

/-- The buffer indices the loop nest writes to, in the order of the writes. -/
def writtenIndices (N : Nat) : List Int :=
  (voxelLoop N).map fun v => voxelIndex N v.1 v.2.1 v.2.2

/-- The index expression of line 202 in exact (unbounded) integers. -/
def linearIndex (N x y z : Nat) : Nat := y * N * N + z * N + x

/-! ## Generator: quantisation of one voxel (`src/main.cpp`, lines 203-207) -/

section Numeric

variable {α : Type} [LinearOrderedField α] [FloorRing α]

/-- The conversion `static_cast<uint8_t>(v)` of a floating point value: the fractional
part is discarded (truncation toward zero) and the integer is reduced modulo 256. -/
def castUInt8 (v : α) : Nat := ((if 0 ≤ v then ⌊v⌋ else ⌈v⌉) % 256).toNat

/-- Lines 203-207 of `main`: the byte stored for one voxel.  `isIn` is the result of
`isInDomain(query)` (an optional subdomain index), `squaredDistance` the result of
`tree.squared_distance(query)`:
`domain = isIn.get_value_or(0)`; the byte is `0` when `domain == 1` and
`static_cast<uint8_t>(std::min(std::sqrt(squaredDistance), 1.f) * 255.f)` otherwise. -/
def storedByte (sqrt : α → α) (isIn : Option Int) (squaredDistance : α) : Nat :=
  if isIn.getD 0 = 1 then 0 else castUInt8 (min (sqrt squaredDistance) 1 * 255)

/-- The quantisation as the specification words it: `round(clamped * 255)`, the nearest
integer to the clamped distance `min(sqrt(s), 1)` times 255. -/
def roundedByte (sqrt : α → α) (squaredDistance : α) : Int :=
  round (min (sqrt squaredDistance) 1 * 255)

end Numeric

/-- A computable square root on the rationals: exact on every rational that is the
square of a rational (numerator and denominator are then perfect squares), and the
quotient of the two integer square roots otherwise. -/
def sqrtRat (q : ℚ) : ℚ := (Nat.sqrt q.num.toNat : ℚ) / (Nat.sqrt q.den : ℚ)

/-! ## Viewer: the buffer read as a two-dimensional image (`src/example/main.cpp`) -/

/-- Offset of texel (column `c`, row `r`) in the tightly packed single-channel image of
the given width that `glTexImage2D` reads row by row (line 158 of `setup`; the width
`32*32` is a multiple of the default row alignment of 4 bytes, so rows are contiguous). -/
def texelOffset (width c r : Nat) : Nat := r * width + c

/-- Packing: the buffer read as an image of width `N*N` and height `N`, as
`glTexImage2D(..., 32*32, 32, ...)` does with the file contents; the result is the
texel at column `c`, row `r`. -/
def pack {β : Type} (N : Nat) (buf : Nat → β) (c r : Nat) : β :=
  buf (texelOffset (N * N) c r)

/-- The voxel `(x, y, z)` as the generator's buffer holds it (line 202 of `main`). -/
def bufferVoxel {β : Type} (N : Nat) (buf : Nat → β) (x y z : Nat) : β :=
  buf (linearIndex N x y z)

/-- The texel (column, row) in which the shader looks up voxel `(x, y, z)`: the integer
part of `unpacked.x = (floor(coords.z*N) + coords.x) / N` scaled by the width `N*N`,
and `unpacked.y = coords.y` scaled by the height `N`. -/
def voxelTexel (N x y z : Nat) : Nat × Nat := (z * N + x, y)

/-- Unpacking of an image into a volume: voxel `(x, y, z)` is read from its texel. -/
def unpack {β : Type} (N : Nat) (img : Nat → Nat → β) (x y z : Nat) : β :=
  img (voxelTexel N x y z).1 (voxelTexel N x y z).2

/-- Unpacking of one texel as the specification words it: texel (column `c`, row `r`)
is voxel `x = c mod N`, `y = r`, `z = c div N`. -/
def texelVoxel (N c r : Nat) : Nat × Nat × Nat := (c % N, r, c / N)

/-! ## Viewer: the GLSL fragment shader (`src/example/main.cpp`, lines 94-119) -/

/-- A GLSL `vec3`. -/
structure Vec3 (α : Type) where
  x : α
  y : α
  z : α

/-- A GLSL `vec2`. -/
structure Vec2 (α : Type) where
  x : α
  y : α

/-- The constant `distFieldSize = 32.0` of the shader, also the `32` of
`glTexImage2D(..., 32*32, 32, ...)`. -/
def distFieldSize : Nat := 32

section Shader

variable {α : Type} [LinearOrderedField α] [FloorRing α]

/-- Componentwise `a + b` on `vec3`. -/
def Vec3.add (a b : Vec3 α) : Vec3 α := ⟨a.x + b.x, a.y + b.y, a.z + b.z⟩

/-- Componentwise `a - b` on `vec3`. -/
def Vec3.sub (a b : Vec3 α) : Vec3 α := ⟨a.x - b.x, a.y - b.y, a.z - b.z⟩

/-- The product `t * v` of a float and a `vec3`. -/
def Vec3.scale (t : α) (v : Vec3 α) : Vec3 α := ⟨t * v.x, t * v.y, t * v.z⟩

/-- GLSL `dot` on `vec3`. -/
def dot (a b : Vec3 α) : α := a.x * b.x + a.y * b.y + a.z * b.z

/-- GLSL `clamp(v, lo, hi) = min(max(v, lo), hi)`. -/
def clamp (v lo hi : α) : α := min (max v lo) hi

/-- GLSL `clamp` of a `vec3` against scalar bounds, componentwise. -/
def clamp3 (p : Vec3 α) (lo hi : α) : Vec3 α :=
  ⟨clamp p.x lo hi, clamp p.y lo hi, clamp p.z lo hi⟩

/-- GLSL `fract(v) = v - floor(v)`. -/
def fract (v : α) : α := v - (⌊v⌋ : α)

/-- GLSL `mix(a, b, t) = a*(1-t) + b*t`. -/
def mix (a b t : α) : α := a * (1 - t) + b * t

/-- Texel selected along one axis of `size` texels by the normalised coordinate `u`
under `GL_NEAREST` filtering with `GL_CLAMP_TO_EDGE` wrapping (lines 159-162 of
`setup`): `floor(u * size)`, kept inside `0 .. size-1`. -/
def nearestTexel (size : Nat) (u : α) : Nat :=
  (min (max ⌊u * (size : α)⌋ 0) ((size : Int) - 1)).toNat

/-- Offset in the uploaded buffer of the texel that `texture2D(distFieldSam, uv)`
fetches from the `N*N` by `N` texture. -/
def fetchedOffset (N : Nat) (uv : Vec2 α) : Nat :=
  texelOffset (N * N) (nearestTexel (N * N) uv.x) (nearestTexel N uv.y)

/-- The value `texture2D(distFieldSam, uv).r`: the fetched byte, normalised to `[0, 1]`. -/
def texture2D (N : Nat) (atlas : Nat → UInt8) (uv : Vec2 α) : α :=
  ((atlas (fetchedOffset N uv)).toNat : α) / 255

/-- The `unpacked` coordinate of the first lookup (lines 104-105):
`unpacked.y = coords.y; unpacked.x = (floor(coords.z*N) + coords.x) / N`. -/
def firstLookup (N : Nat) (coords : Vec3 α) : Vec2 α :=
  ⟨((⌊coords.z * (N : α)⌋ : α) + coords.x) / (N : α), coords.y⟩

/-- The `unpacked` coordinate of the second lookup (line 107):
`unpacked.x = (floor(coords.z*N) + 1.0 + coords.x) / N`, `unpacked.y` unchanged. -/
def secondLookup (N : Nat) (coords : Vec3 α) : Vec2 α :=
  ⟨((⌊coords.z * (N : α)⌋ : α) + 1 + coords.x) / (N : α), coords.y⟩

/-- The GLSL function `sampleDistanceField` (lines 101-111), with the shader constant
`distFieldSize` as the parameter `N`. -/
def sampleDistanceField (sqrt : α → α) (N : Nat) (atlas : Nat → UInt8)
    (position : Vec3 α) : α :=
  let coords := clamp3 position 0 1
  let d1 := texture2D N atlas (firstLookup N coords)
  let d2 := texture2D N atlas (secondLookup N coords)
  let a := fract (coords.z * (N : α))
  sqrt (dot (position.sub coords) (position.sub coords)) + mix d1 d2 a

/-- One pass through the body of the loop of `march` (lines 115-116):
`h = sampleDistanceField(origin + t*dir); t += h`. -/
def marchStep (sqrt : α → α) (N : Nat) (atlas : Nat → UInt8) (origin dir : Vec3 α)
    (t : α) : α :=
  t + sampleDistanceField sqrt N atlas (origin.add (Vec3.scale t dir))

/-- The loop `for (int i = 0; i < K; i++)` of `march` with `K` iterations left and the
accumulator at `t`; the loop has no `break` and no `return` in its body. -/
def marchLoop (sqrt : α → α) (N : Nat) (atlas : Nat → UInt8) (origin dir : Vec3 α) :
    Nat → α → α
  | 0, t => t
  | k + 1, t => marchLoop sqrt N atlas origin dir k (marchStep sqrt N atlas origin dir t)

/-- The GLSL function `march` (lines 112-119): `t = 0.0`, ten passes, `return t`. -/
def march (sqrt : α → α) (N : Nat) (atlas : Nat → UInt8) (origin dir : Vec3 α) : α :=
  marchLoop sqrt N atlas origin dir 10 0

end Shader

/-! ## Generator: the bounding box and the normalisation (`src/main.cpp`, lines 34-84) -/

/-- A `float` in exact arithmetic: a finite value, one of the two infinities, or NaN.
Rounding is not modelled and the two zeros are not distinguished. -/
inductive Ext (α : Type) where
  | fin (a : α)
  | posInf
  | negInf
  | nan

/-- The `struct AABB` (lines 34-37): the corners `min` and `max`. -/
structure AABB (α : Type) where
  min : Vec3 (Ext α)
  max : Vec3 (Ext α)

section Normalizer

variable {α : Type} [LinearOrderedField α]

/-- The comparison `a < b` of two floats; false as soon as one of them is NaN. -/
def Ext.lt : Ext α → Ext α → Bool
  | .fin a, .fin b => decide (a < b)
  | .fin _, .posInf => true
  | .negInf, .fin _ => true
  | .negInf, .posInf => true
  | _, _ => false

/-- The function `std::min(a, b)`: `b` when `b < a`, else `a`. -/
def Ext.stdMin (a b : Ext α) : Ext α := if Ext.lt b a then b else a

/-- The function `std::max(a, b)`: `b` when `a < b`, else `a`. -/
def Ext.stdMax (a b : Ext α) : Ext α := if Ext.lt a b then b else a

/-- Unary minus on floats. -/
def Ext.neg : Ext α → Ext α
  | .fin a => .fin (-a)
  | .posInf => .negInf
  | .negInf => .posInf
  | .nan => .nan

/-- Addition of floats; opposite infinities add up to NaN. -/
def Ext.add : Ext α → Ext α → Ext α
  | .fin a, .fin b => .fin (a + b)
  | .nan, _ => .nan
  | _, .nan => .nan
  | .posInf, .negInf => .nan
  | .negInf, .posInf => .nan
  | .posInf, _ => .posInf
  | _, .posInf => .posInf
  | .negInf, _ => .negInf
  | _, .negInf => .negInf

/-- Subtraction of floats. -/
def Ext.sub (a b : Ext α) : Ext α := Ext.add a (Ext.neg b)

/-- The infinity with the sign of `s * t`, for `t` an infinity of sign `pos`; NaN when
`s` is zero. -/
def Ext.signedInf (s : α) (pos : Bool) : Ext α :=
  if s = 0 then .nan
  else if (decide (0 < s)) = pos then .posInf else .negInf

/-- Multiplication of floats. -/
def Ext.mul : Ext α → Ext α → Ext α
  | .fin a, .fin b => .fin (a * b)
  | .nan, _ => .nan
  | _, .nan => .nan
  | .fin a, .posInf => Ext.signedInf a true
  | .fin a, .negInf => Ext.signedInf a false
  | .posInf, .fin b => Ext.signedInf b true
  | .negInf, .fin b => Ext.signedInf b false
  | .posInf, .posInf => .posInf
  | .negInf, .negInf => .posInf
  | .posInf, .negInf => .negInf
  | .negInf, .posInf => .negInf

/-- Division of floats: a finite value over an infinity is zero, a non-zero finite value
over zero an infinity, and `0/0` and `inf/inf` are NaN. -/
def Ext.div : Ext α → Ext α → Ext α
  | .fin a, .fin b => if b = 0 then Ext.signedInf a true else .fin (a / b)
  | .nan, _ => .nan
  | _, .nan => .nan
  | .fin _, _ => .fin 0
  | .posInf, .fin b => if b < 0 then .negInf else .posInf
  | .negInf, .fin b => if b < 0 then .posInf else .negInf
  | _, _ => .nan

/-- The `aiVector3D` sum `a + b`. -/
def aiAdd (a b : Vec3 (Ext α)) : Vec3 (Ext α) :=
  ⟨Ext.add a.x b.x, Ext.add a.y b.y, Ext.add a.z b.z⟩

/-- The `aiVector3D` difference `a - b`. -/
def aiSub (a b : Vec3 (Ext α)) : Vec3 (Ext α) :=
  ⟨Ext.sub a.x b.x, Ext.sub a.y b.y, Ext.sub a.z b.z⟩

/-- The `aiVector3D` negation `-a`. -/
def aiNeg (a : Vec3 (Ext α)) : Vec3 (Ext α) := ⟨Ext.neg a.x, Ext.neg a.y, Ext.neg a.z⟩

/-- The `aiVector3D` product `a * f` with a float. -/
def aiScale (a : Vec3 (Ext α)) (f : Ext α) : Vec3 (Ext α) :=
  ⟨Ext.mul a.x f, Ext.mul a.y f, Ext.mul a.z f⟩

/-- A point with finite coordinates as an `aiVector3D`. -/
def finVec (v : Vec3 α) : Vec3 (Ext α) := ⟨.fin v.x, .fin v.y, .fin v.z⟩

/-- The body of the loop of `computeAABB` (lines 47-54) for one vertex `v`. -/
def aabbStep (ab : AABB α) (v : Vec3 (Ext α)) : AABB α :=
  ⟨⟨Ext.stdMin v.x ab.min.x, Ext.stdMin v.y ab.min.y, Ext.stdMin v.z ab.min.z⟩,
    ⟨Ext.stdMax v.x ab.max.x, Ext.stdMax v.y ab.max.y, Ext.stdMax v.z ab.max.z⟩⟩

/-- The function `computeAABB` (lines 39-58) on the vertices of the mesh: `min` starts
at `(Inf, Inf, Inf)`, `max` at `-min`, and every vertex is folded in. -/
def computeAABB (vertices : List (Vec3 (Ext α))) : AABB α :=
  vertices.foldl aabbStep
    ⟨⟨.posInf, .posInf, .posInf⟩, aiNeg ⟨.posInf, .posInf, .posInf⟩⟩

/-- Line 75 of `CGALBuilder::operator()`: `origin = (ab.max+ab.min) * 0.5f`. -/
def aabbOrigin (ab : AABB α) : Vec3 (Ext α) := aiScale (aiAdd ab.max ab.min) (.fin (1 / 2))

/-- Line 76: `extents = ab.max-ab.min`. -/
def aabbExtents (ab : AABB α) : Vec3 (Ext α) := aiSub ab.max ab.min

/-- The largest extent `std::max(extents.x, std::max(extents.y, extents.z))` of line 77. -/
def largestExtent (ab : AABB α) : Ext α :=
  Ext.stdMax (aabbExtents ab).x (Ext.stdMax (aabbExtents ab).y (aabbExtents ab).z)

/-- Line 77: `scale = 0.8f / std::max(extents.x, std::max(extents.y, extents.z))`. -/
def aabbScale (ab : AABB α) : Ext α := Ext.div (.fin (4 / 5)) (largestExtent ab)

/-- Line 82: the map `v ↦ (v-origin)*scale + aiVector3D(0.5f, 0.5f, 0.5f)` applied to
one point, for the bounding box `ab` of the mesh. -/
def normalizePoint (ab : AABB α) (v : Vec3 (Ext α)) : Vec3 (Ext α) :=
  aiAdd (aiScale (aiSub v (aabbOrigin ab)) (aabbScale ab))
    ⟨.fin (1 / 2), .fin (1 / 2), .fin (1 / 2)⟩

/-- Lines 74-84 of `CGALBuilder::operator()`: the points handed to `B.add_vertex`, one
for each vertex of the mesh, in order. -/
def normalizedVertices (vertices : List (Vec3 (Ext α))) : List (Vec3 (Ext α)) :=
  vertices.map (normalizePoint (computeAABB vertices))

end Normalizer

/-- Line 82 on one finite coordinate `v` of a vertex, for a bounding box that spans
`[lo, hi]` on that axis and has the largest extent `L`:
`(v - (hi + lo) * 0.5) * (0.8 / L) + 0.5`. -/
def normalizeCoord {α : Type} [LinearOrderedField α] (lo hi L v : α) : α :=
  (v - (hi + lo) * (1 / 2)) * (4 / 5 / L) + 1 / 2


/-! ## Generator: the command line and the control flow of `main` (lines 101-173) -/

/-- The function `getCmdOption` (lines 101-107): the argument that follows the first
occurrence of `option`, or the empty string when `option` does not occur or is the last
argument. -/
def getCmdOption : List String → String → String
  | [], _ => ""
  | a :: rest, option => if a = option then rest.headD "" else getCmdOption rest option

/-- The function `cmdOptionExists` (lines 109-112). -/
def cmdOptionExists (args : List String) (option : String) : Bool := args.contains option

/-- What a run has done to the file at the output path: nothing; opened it for writing
(`std::ofstream`, which creates the file or empties an existing one) and written
nothing; or opened it and written the given number of bytes. -/
inductive FileEffect where
  | untouched
  | truncated
  | written (bytes : Int)
  deriving DecidableEq

/-- How a run of `main` ends: `return EXIT_STATUS_INC` with the value the counter has
at that place, a failed `ASSERT` (`abort`), the uncaught exception of `new[]` for a
negative element count, or the voxel loop run at resolution `N` followed by the write
of the buffer and `return 0`. -/
inductive Ending where
  | exited (status : Nat)
  | assertFailed
  | allocFailed
  | generated (N : Int)
  deriving DecidableEq

/-- The outcome of a run. -/
structure Run where
  ending : Ending
  outputFile : FileEffect
  deriving DecidableEq

/-- The collaborators of `main` that are not part of the source: whether the output
file can be opened, `std::stoi` (`none` when it throws), the Assimp import (`none` for
a null scene, else `mNumMeshes`), and the error flag `B.error()` of the polyhedron
builder. -/
structure Env where
  openOutput : String → Bool
  stoi : String → Option Int
  loadScene : String → Option Nat
  builderError : Bool

/-- The resolution `k_distanceFieldSize` after lines 144-151: 64, replaced by the value
of `std::stoi(sizeArg)` when `--size` has a non-empty value that parses. -/
def parsedSize (env : Env) (args : List String) : Int :=
  if 0 < (getCmdOption args "--size").length then
    (env.stoi (getCmdOption args "--size")).getD 64
  else 64

/-- Lines 162-217 of `main`: the import, the mesh count check, the construction of the
polyhedron (with the `ASSERT` of line 94 on the builder's error flag), the allocation,
the voxel loop and the write.  The output file is open at this point. -/
def generate (ndebug : Bool) (env : Env) (args : List String) : Run :=
  match env.loadScene (getCmdOption args "-i") with
  | none => ⟨.exited 5, .truncated⟩
  | some numMeshes =>
    if numMeshes ≠ 1 then ⟨.exited 6, .truncated⟩
    else if ndebug = false ∧ env.builderError = true then ⟨.assertFailed, .truncated⟩
    else if bufferSize (parsedSize env args) < 0 then ⟨.allocFailed, .truncated⟩
    else ⟨.generated (parsedSize env args), .written (bufferSize (parsedSize env args))⟩

/-- The function `main` (lines 114-218) up to the outcome of the run.  `ndebug` tells
whether the program is compiled with `NDEBUG`, which turns `ASSERT` (that is `assert`)
into nothing.  The exit statuses are the successive values of `__COUNTER__`, the first
of which (0) is used up by the `STATIC_ASSERT` of line 116. -/
def runMainWith (ndebug : Bool) (env : Env) (args : List String) : Run :=
  if args.length = 1 ∨ cmdOptionExists args "-h" = true
      ∨ cmdOptionExists args "--help" = true then
    ⟨.exited 1, .untouched⟩
  else if (getCmdOption args "-i").length = 0 then ⟨.exited 2, .untouched⟩
  else if (getCmdOption args "-o").length = 0 then ⟨.exited 3, .untouched⟩
  else if env.openOutput (getCmdOption args "-o") = false then ⟨.exited 4, .untouched⟩
  else if 0 < (getCmdOption args "--size").length ∧ ndebug = false
      ∧ ¬ (2 ≤ parsedSize env args) then
    ⟨.assertFailed, .truncated⟩
  else generate ndebug env args

/-- The program as the source has it: `NDEBUG` is not defined, a failed `ASSERT` aborts. -/
def runMain (env : Env) (args : List String) : Run := runMainWith false env args


/-! ## Lemmas on the index arithmetic -/

theorem wrapInt32_natCast {n : Nat} (h : n < 2147483648) :
    wrapInt32 (n : Int) = (n : Int) := by
  unfold wrapInt32
  omega

theorem linearIndex_lt {N x y z : Nat} (hx : x < N) (hy : y < N) (hz : z < N) :
    linearIndex N x y z < N * N * N := by
  unfold linearIndex
  have h1 : (y + 1) * N * N ≤ N * N * N :=
    Nat.mul_le_mul_right _ (Nat.mul_le_mul_right _ hy)
  have h2 : (z + 1) * N ≤ N * N := Nat.mul_le_mul_right _ hz
  have h3 : (y + 1) * N * N = y * N * N + N * N := by ring
  have h4 : (z + 1) * N = z * N + N := by ring
  generalize y * N * N = a at *
  generalize z * N = b at *
  generalize N * N * N = c at *
  generalize N * N = d at *
  omega

theorem cube_lt_of_le {N : Nat} (hN : N ≤ 1290) : N * N * N < 2147483648 := by
  have h1 : N * N ≤ 1290 * 1290 := Nat.mul_le_mul hN hN
  have h2 : N * N * N ≤ 1290 * 1290 * 1290 := Nat.mul_le_mul h1 hN
  exact Nat.lt_of_le_of_lt h2 (by norm_num)

/-- While `N*N*N` fits in an `int`, the `int` evaluation of the index is the exact one. -/
theorem voxelIndex_eq_linearIndex {N x y z : Nat} (hfit : N * N * N < 2147483648)
    (hx : x < N) (hy : y < N) (hz : z < N) :
    voxelIndex N x y z = (linearIndex N x y z : Int) := by
  have hlt := linearIndex_lt hx hy hz
  unfold linearIndex at hlt
  have hN : 0 < N := Nat.lt_of_le_of_lt (Nat.zero_le _) hx
  have b1 : y * N ≤ y * N * N := Nat.le_mul_of_pos_right _ hN
  have e1 : (y : Int) * (N : Int) = ((y * N : Nat) : Int) := by push_cast; rfl
  have e2 : ((y * N : Nat) : Int) * (N : Int) = ((y * N * N : Nat) : Int) := by
    push_cast; rfl
  have e3 : (z : Int) * (N : Int) = ((z * N : Nat) : Int) := by push_cast; rfl
  have e4 : ((y * N * N : Nat) : Int) + ((z * N : Nat) : Int)
      = ((y * N * N + z * N : Nat) : Int) := by push_cast; rfl
  have e5 : ((y * N * N + z * N : Nat) : Int) + (x : Int)
      = ((y * N * N + z * N + x : Nat) : Int) := by push_cast; rfl
  generalize hA : y * N * N = A at *
  generalize hB : z * N = B at *
  generalize hC : y * N = C at *
  generalize hD : N * N * N = D at *
  unfold voxelIndex linearIndex
  rw [e1, wrapInt32_natCast (by omega), e2, wrapInt32_natCast (by omega), e3,
    wrapInt32_natCast (by omega), e4, wrapInt32_natCast (by omega), e5,
    wrapInt32_natCast (by omega), hC, hA, hB]

theorem bufferSize_eq {N : Nat} (hfit : N * N * N < 2147483648) :
    bufferSize N = ((N * N * N : Nat) : Int) := by
  have b1 : N * N < 2147483648 := by
    rcases Nat.eq_zero_or_pos N with h | h
    · subst h; norm_num
    · exact Nat.lt_of_le_of_lt (Nat.le_mul_of_pos_right _ h) hfit
  have e1 : (N : Int) * (N : Int) = ((N * N : Nat) : Int) := by push_cast; rfl
  have e2 : ((N * N : Nat) : Int) * (N : Int) = ((N * N * N : Nat) : Int) := by
    push_cast; rfl
  unfold bufferSize
  rw [e1, wrapInt32_natCast b1, e2, wrapInt32_natCast hfit]

/-- Rows of length `b` laid one after the other enumerate `0 .. a*b - 1` in order. -/
theorem range_flatMap_rows (a b : Nat) :
    (List.range a).flatMap (fun i => (List.range b).map (fun j => i * b + j))
      = List.range (a * b) := by
  induction a with
  | zero => simp
  | succ n ih =>
    rw [List.range_succ, List.flatMap_append, ih, Nat.succ_mul, List.range_add]
    simp

/-- In exact integers the loop nest produces the indices `0, 1, ..., N*N*N - 1` in order. -/
theorem voxelLoop_linearIndex (N : Nat) :
    (voxelLoop N).map (fun v => linearIndex N v.1 v.2.1 v.2.2) = List.range (N * N * N) := by
  have inner : ∀ y : Nat,
      (List.range N).flatMap (fun z => (List.range N).map (fun x => y * N * N + z * N + x))
        = (List.range (N * N)).map (fun r => y * (N * N) + r) := by
    intro y
    rw [← range_flatMap_rows N N, List.map_flatMap]
    simp only [List.map_map]
    congr 1
    funext z
    apply List.map_congr_left
    intro x _
    simp only [Function.comp]
    ring
  unfold voxelLoop
  simp only [List.map_flatMap, List.map_map]
  have step : ∀ y : Nat,
      (List.range N).flatMap (fun z => (List.range N).map
          ((fun v : Nat × Nat × Nat => linearIndex N v.1 v.2.1 v.2.2) ∘ fun x => (x, y, z)))
        = (List.range (N * N)).map (fun r => y * (N * N) + r) := by
    intro y
    rw [← inner y]
    rfl
  simp only [step]
  rw [range_flatMap_rows N (N * N), Nat.mul_assoc]

theorem mem_voxelLoop {N : Nat} {v : Nat × Nat × Nat} (h : v ∈ voxelLoop N) :
    v.1 < N ∧ v.2.1 < N ∧ v.2.2 < N := by
  unfold voxelLoop at h
  simp only [List.mem_flatMap, List.mem_map, List.mem_range] at h
  obtain ⟨y, hy, z, hz, x, hx, rfl⟩ := h
  exact ⟨hx, hy, hz⟩


/-! ## The layout of the buffer -/

theorem linearIndex_mod {N x y z : Nat} (hx : x < N) : linearIndex N x y z % N = x := by
  unfold linearIndex
  rw [show y * N * N + z * N + x = x + N * (y * N + z) by ring,
    Nat.add_mul_mod_self_left, Nat.mod_eq_of_lt hx]

theorem linearIndex_div {N x y z : Nat} (hx : x < N) :
    linearIndex N x y z / N = y * N + z := by
  unfold linearIndex
  have hN : 0 < N := Nat.lt_of_le_of_lt (Nat.zero_le _) hx
  rw [show y * N * N + z * N + x = x + N * (y * N + z) by ring,
    Nat.add_mul_div_left _ _ hN, Nat.div_eq_of_lt hx, Nat.zero_add]

theorem row_mod {N y z : Nat} (hz : z < N) : (y * N + z) % N = z := by
  rw [show y * N + z = z + N * y by ring, Nat.add_mul_mod_self_left, Nat.mod_eq_of_lt hz]

theorem row_div {N y z : Nat} (hz : z < N) : (y * N + z) / N = y := by
  have hN : 0 < N := Nat.lt_of_le_of_lt (Nat.zero_le _) hz
  rw [show y * N + z = z + N * y by ring, Nat.add_mul_div_left _ _ hN,
    Nat.div_eq_of_lt hz, Nat.zero_add]

theorem linearIndex_injective {N x y z a b c : Nat} (hx : x < N) (hz : z < N)
    (ha : a < N) (hc : c < N) (h : linearIndex N x y z = linearIndex N a b c) :
    x = a ∧ y = b ∧ z = c := by
  have h1 : x = a := by
    have := congrArg (fun i => i % N) h
    simpa [linearIndex_mod hx, linearIndex_mod ha] using this
  have h2 : y * N + z = b * N + c := by
    have := congrArg (fun i => i / N) h
    simpa [linearIndex_div hx, linearIndex_div ha] using this
  have h3 : z = c := by
    have := congrArg (fun i => i % N) h2
    simpa [row_mod hz, row_mod hc] using this
  have h4 : y = b := by
    have := congrArg (fun i => i / N) h2
    simpa [row_div hz, row_div hc] using this
  exact ⟨h1, h4, h3⟩

theorem linearIndex_decode {N i : Nat} (hN : 0 < N) (hi : i < N * N * N) :
    i % N < N ∧ i / N / N < N ∧ i / N % N < N ∧
      linearIndex N (i % N) (i / N / N) (i / N % N) = i := by
  refine ⟨Nat.mod_lt _ hN, ?_, Nat.mod_lt _ hN, ?_⟩
  · rw [Nat.div_div_eq_div_mul]
    exact Nat.div_lt_of_lt_mul hi
  · unfold linearIndex
    have h1 := Nat.div_add_mod i N
    have h2 := Nat.div_add_mod (i / N) N
    calc i / N / N * N * N + i / N % N * N + i % N
        = N * (N * (i / N / N) + i / N % N) + i % N := by ring
      _ = i := by rw [h2, h1]

/-- C1 (amended): for every grid resolution `N` with `2 ≤ N ≤ 1290` (the range in which
`N*N*N` fits the 32-bit `int` the generator computes sizes and indices in), the
allocated and written size is `N*N*N`, the loop nest stores voxel `(x, y, z)` at index
`y*N*N + z*N + x`, the indices it writes are, in the order of the writes, exactly
`0, 1, ..., N*N*N - 1` (every index of the buffer once, none outside), and the index
map is a bijection from the grid onto `0 .. N*N*N - 1`. -/
theorem generator_layout_bijective (N : Nat) (hN : 2 ≤ N) (hfit : N ≤ 1290) :
    bufferSize N = ((N * N * N : Nat) : Int) ∧
    (∀ x y z : Nat, x < N → y < N → z < N →
      voxelIndex N x y z = ((y * N * N + z * N + x : Nat) : Int)) ∧
    writtenIndices N = (List.range (N * N * N)).map Int.ofNat ∧
    (writtenIndices N).length = N * N * N ∧
    (∀ x y z a b c : Nat, x < N → y < N → z < N → a < N → b < N → c < N →
      voxelIndex N x y z = voxelIndex N a b c → x = a ∧ y = b ∧ z = c) ∧
    (∀ i : Nat, i < N * N * N →
      ∃ x y z : Nat, x < N ∧ y < N ∧ z < N ∧ voxelIndex N x y z = (i : Int)) := by
  have hc := cube_lt_of_le hfit
  have hw : writtenIndices N = (List.range (N * N * N)).map Int.ofNat := by
    rw [← voxelLoop_linearIndex N, List.map_map]
    unfold writtenIndices
    apply List.map_congr_left
    intro v hv
    obtain ⟨h1, h2, h3⟩ := mem_voxelLoop hv
    simpa using voxelIndex_eq_linearIndex hc h1 h2 h3
  refine ⟨bufferSize_eq hc, ?_, hw, ?_, ?_, ?_⟩
  · intro x y z hx hy hz
    exact voxelIndex_eq_linearIndex hc hx hy hz
  · rw [hw]; simp
  · intro x y z a b c hx hy hz ha hb hc2 h
    rw [voxelIndex_eq_linearIndex hc hx hy hz, voxelIndex_eq_linearIndex hc ha hb hc2] at h
    exact linearIndex_injective hx hz ha hc2 (by exact_mod_cast h)
  · intro i hi
    obtain ⟨h1, h2, h3, h4⟩ := linearIndex_decode (by omega : 0 < N) hi
    exact ⟨i % N, i / N / N, i / N % N, h1, h2, h3, by
      rw [voxelIndex_eq_linearIndex hc h1 h2 h3, h4]⟩

/-- C1, counterexample: at the grid resolution `N = 1291` the index the generator
computes for voxel `(0, 1290, 0)` is negative, not `1290*1291*1291`, and the element
count it allocates and writes is not `1291*1291*1291`. -/
theorem generator_layout_overflow :
    voxelIndex 1291 0 1290 0 = -2144948806 ∧
    voxelIndex 1291 0 1290 0 ≠ 1290 * 1291 * 1291 + 0 * 1291 + 0 ∧
    bufferSize 1291 = -2143282125 ∧
    bufferSize 1291 ≠ 1291 * 1291 * 1291 := by
  decide

/-- C2: for every `N ≥ 1` and every buffer in the generator's layout, the buffer read
as an image of width `N*N` and height `N` holds voxel `(x, y, z)` at row `y`, column
`z*N + x`, a column inside `[z*N, (z+1)*N)`; unpacking that texel as `x = c mod N`,
`z = c div N`, `y = r` gives back `(x, y, z)`, every texel of the image is the texel of
the voxel it unpacks to, and unpacking the packed buffer returns every voxel.  The
layout is the index expression of line 202 in exact integers, which is what the
generator's `int` arithmetic computes for every `N ≤ 1290`. -/
theorem unpack_pack_inverse {β : Type} (N : Nat) (hN : 1 ≤ N) (buf : Nat → β) :
    (∀ x y z : Nat, x < N → y < N → z < N →
      pack N buf (z * N + x) y = bufferVoxel N buf x y z ∧
      z * N ≤ z * N + x ∧ z * N + x < (z + 1) * N ∧ z * N + x < N * N ∧
      linearIndex N x y z < N * N * N ∧
      texelVoxel N (z * N + x) y = (x, y, z) ∧
      unpack N (pack N buf) x y z = bufferVoxel N buf x y z ∧
      (N ≤ 1290 → voxelIndex N x y z = (linearIndex N x y z : Int))) ∧
    (∀ c r : Nat, c < N * N → r < N →
      c % N < N ∧ c / N < N ∧
      voxelTexel N (texelVoxel N c r).1 (texelVoxel N c r).2.1 (texelVoxel N c r).2.2
        = (c, r) ∧
      pack N buf c r = bufferVoxel N buf (c % N) r (c / N)) := by
  have hpos : 0 < N := hN
  constructor
  · intro x y z hx hy hz
    have hoff : texelOffset (N * N) (z * N + x) y = linearIndex N x y z := by
      unfold texelOffset linearIndex; ring
    have hcol : z * N + x < (z + 1) * N := by
      rw [Nat.succ_mul]; omega
    have hcol2 : z * N + x < N * N :=
      Nat.lt_of_lt_of_le hcol (Nat.mul_le_mul_right _ hz)
    refine ⟨?_, Nat.le_add_right _ _, hcol, hcol2, linearIndex_lt hx hy hz, ?_, ?_, ?_⟩
    · unfold pack bufferVoxel; rw [hoff]
    · unfold texelVoxel; rw [row_mod hx, row_div hx]
    · unfold unpack voxelTexel pack bufferVoxel; rw [hoff]
    · intro hfit
      exact voxelIndex_eq_linearIndex (cube_lt_of_le hfit) hx hy hz
  · intro c r hc _
    have hdiv : c / N < N := Nat.div_lt_of_lt_mul hc
    have hcr : c / N * N + c % N = c := by
      rw [Nat.mul_comm]; exact Nat.div_add_mod c N
    refine ⟨Nat.mod_lt _ hpos, hdiv, ?_, ?_⟩
    · unfold voxelTexel texelVoxel; simp only [hcr]
    · unfold pack bufferVoxel texelOffset linearIndex
      congr 1
      rw [Nat.add_assoc, hcr, Nat.mul_assoc]

/-- Witness for C1 (amended) at `N = 2`. -/
theorem generator_layout_bijective_witness :
    bufferSize (2 : Nat) = ((2 * 2 * 2 : Nat) : Int) ∧
    (∀ x y z : Nat, x < 2 → y < 2 → z < 2 →
      voxelIndex (2 : Nat) x y z = ((y * 2 * 2 + z * 2 + x : Nat) : Int)) ∧
    writtenIndices 2 = (List.range (2 * 2 * 2)).map Int.ofNat ∧
    (writtenIndices 2).length = 2 * 2 * 2 ∧
    (∀ x y z a b c : Nat, x < 2 → y < 2 → z < 2 → a < 2 → b < 2 → c < 2 →
      voxelIndex (2 : Nat) x y z = voxelIndex (2 : Nat) a b c → x = a ∧ y = b ∧ z = c) ∧
    (∀ i : Nat, i < 2 * 2 * 2 →
      ∃ x y z : Nat, x < 2 ∧ y < 2 ∧ z < 2 ∧ voxelIndex (2 : Nat) x y z = (i : Int)) :=
  generator_layout_bijective 2 (by decide) (by decide)

/-- Witness for C2 at `N = 2` and the buffer holding its own indices. -/
theorem unpack_pack_inverse_witness :
    (1 ≤ 2) ∧ unpack 2 (pack 2 (fun i : Nat => i)) 1 0 1
      = bufferVoxel 2 (fun i : Nat => i) 1 0 1 :=
  ⟨by decide,
    ((unpack_pack_inverse 2 (by decide) (fun i : Nat => i)).1 1 0 1
      (by decide) (by decide) (by decide)).2.2.2.2.2.2.1⟩

/-! ## The quantiser -/

section NumericLemmas

variable {α : Type} [LinearOrderedField α] [FloorRing α]

theorem castUInt8_of_range {v : α} (h0 : 0 ≤ v) (h1 : v ≤ 255) :
    (castUInt8 v : Int) = ⌊v⌋ := by
  have hf0 : 0 ≤ ⌊v⌋ := Int.floor_nonneg.mpr h0
  have hf1 : ⌊v⌋ < 256 := Int.floor_lt.mpr (lt_of_le_of_lt h1 (by norm_num))
  unfold castUInt8
  rw [if_pos h0]
  omega

theorem clamped_scaled_range {F : Type} [LinearOrderedField F] {d : F} (h0 : 0 ≤ d) :
    0 ≤ min d 1 * 255 ∧ min d 1 * 255 ≤ 255 := by
  have h1 : 0 ≤ min d 1 := le_min h0 zero_le_one
  have h2 : min d 1 ≤ 1 := min_le_right _ _
  constructor
  · positivity
  · linarith

theorem storedByte_outside {sqrt : α → α} {isIn : Option Int} {s : α}
    (hout : isIn.getD 0 ≠ 1) (h0 : 0 ≤ sqrt s) :
    (storedByte sqrt isIn s : Int) = ⌊min (sqrt s) 1 * 255⌋ := by
  unfold storedByte
  rw [if_neg hout]
  exact castUInt8_of_range (clamped_scaled_range h0).1 (clamped_scaled_range h0).2

theorem sqrtRat_zero : sqrtRat 0 = 0 := by simp [sqrtRat]

theorem sqrtRat_one : sqrtRat 1 = 1 := by simp [sqrtRat]

theorem sqrtRat_nonneg (q : ℚ) : 0 ≤ sqrtRat q := by
  unfold sqrtRat; positivity

/-- C4 (amended): for every voxel not classified inside whose distance `sqrt(s)` to the
mesh is non-negative, the stored byte is `floor(min(sqrt(s), 1) * 255)`: the clamped
distance times 255 with its fractional part discarded, a value in `0 .. 255` that is at
most the scaled distance and more than the scaled distance minus one. -/
theorem storedByte_truncates (sqrt : α → α) (isIn : Option Int) (s : α)
    (hout : isIn.getD 0 ≠ 1) (h0 : 0 ≤ sqrt s) :
    (storedByte sqrt isIn s : Int) = ⌊min (sqrt s) 1 * 255⌋ ∧
    storedByte sqrt isIn s ≤ 255 ∧
    (storedByte sqrt isIn s : α) ≤ min (sqrt s) 1 * 255 ∧
    min (sqrt s) 1 * 255 < (storedByte sqrt isIn s : α) + 1 := by
  have hb := storedByte_outside hout h0
  have hr := clamped_scaled_range h0
  have hcast : ((storedByte sqrt isIn s : Nat) : α)
      = ((⌊min (sqrt s) 1 * 255⌋ : Int) : α) := by
    rw [← hb]; simp
  refine ⟨hb, ?_, ?_, ?_⟩
  · have : ⌊min (sqrt s) 1 * 255⌋ < 256 :=
      Int.floor_lt.mpr (lt_of_le_of_lt hr.2 (by norm_num))
    omega
  · rw [hcast]; exact Int.floor_le _
  · rw [hcast]; exact Int.lt_floor_add_one _

/-- Witness for C4 (amended): a voxel outside the mesh at squared distance `1/16`. -/
theorem storedByte_truncates_witness :
    (none : Option Int).getD 0 ≠ 1 ∧ 0 ≤ sqrtRat (1 / 16) ∧
    (storedByte sqrtRat none (1 / 16) : Int) = ⌊min (sqrtRat (1 / 16)) 1 * 255⌋ :=
  ⟨by decide, sqrtRat_nonneg _,
    (storedByte_truncates sqrtRat none (1 / 16) (by decide) (sqrtRat_nonneg _)).1⟩

/-- C4, counterexample: a voxel outside the mesh at squared distance `1/16` (distance
`1/4`, scaled distance `63.75`) is stored as `63`, whereas `round(min(sqrt(s),1)*255)`
is `64`. -/
theorem storedByte_not_rounded :
    storedByte sqrtRat none (1 / 16) = 63 ∧ roundedByte sqrtRat (1 / 16) = 64 := by
  have hs : sqrtRat (1 / 16) = 1 / 4 := by norm_num [sqrtRat]
  constructor
  · have h : (storedByte sqrtRat none (1 / 16) : Int)
        = ⌊min (sqrtRat (1 / 16)) 1 * 255⌋ :=
      storedByte_outside (by decide) (sqrtRat_nonneg _)
    rw [hs] at h
    have h2 : ⌊min (1 / 4 : ℚ) 1 * 255⌋ = 63 := by
      rw [Int.floor_eq_iff]; norm_num
    omega
  · unfold roundedByte
    rw [hs, round_eq, Int.floor_eq_iff]; norm_num

/-- C5: a voxel classified inside (`domain == 1`), whatever its squared distance, and a
voxel at squared distance `0` from the mesh, whatever its classification, is stored as
the byte `0` (the square root of `0` being `0`). -/
theorem storedByte_inside_or_boundary (sqrt : α → α) (isIn : Option Int) (s : α)
    (hzero : sqrt 0 = 0) (h : isIn.getD 0 = 1 ∨ s = 0) :
    storedByte sqrt isIn s = 0 := by
  unfold storedByte
  split
  · rfl
  · rcases h with h | h
    · contradiction
    · rw [h, hzero]
      simp [castUInt8]

/-- Witness for C5: a boundary point that the classifier reports as outside. -/
theorem storedByte_inside_or_boundary_witness :
    sqrtRat 0 = 0 ∧ ((none : Option Int).getD 0 = 1 ∨ (0 : ℚ) = 0) ∧
    storedByte sqrtRat none (0 : ℚ) = 0 :=
  ⟨sqrtRat_zero, Or.inr rfl,
    storedByte_inside_or_boundary sqrtRat none 0 sqrtRat_zero (Or.inr rfl)⟩

/-- C6: for every voxel not classified inside whose distance `sqrt(s)` to the mesh is
non-negative, the stored byte is 255 whenever the distance exceeds 1, and the stored
byte is 255 if and only if the distance is at least 1. -/
theorem storedByte_saturated_iff (sqrt : α → α) (isIn : Option Int) (s : α)
    (hout : isIn.getD 0 ≠ 1) (h0 : 0 ≤ sqrt s) :
    (1 < sqrt s → storedByte sqrt isIn s = 255) ∧
    (storedByte sqrt isIn s = 255 ↔ 1 ≤ sqrt s) := by
  have hb := storedByte_outside hout h0
  have hr := clamped_scaled_range h0
  have key : storedByte sqrt isIn s = 255 ↔ 1 ≤ sqrt s := by
    have hle : ⌊min (sqrt s) 1 * 255⌋ ≤ 255 := by
      have : ⌊min (sqrt s) 1 * 255⌋ < 256 :=
        Int.floor_lt.mpr (lt_of_le_of_lt hr.2 (by norm_num))
      omega
    have hge : (255 : Int) ≤ ⌊min (sqrt s) 1 * 255⌋ ↔ 1 ≤ sqrt s := by
      rw [Int.le_floor]
      constructor
      · intro h
        have h1 : (1 : α) ≤ min (sqrt s) 1 := by
          by_contra hc
          push_neg at hc
          have h2 : min (sqrt s) 1 * 255 < 255 := by linarith
          have h3 : ((255 : Int) : α) = 255 := by norm_num
          rw [h3] at h
          linarith
        exact le_trans h1 (min_le_left _ _)
      · intro h
        rw [min_eq_right h]
        norm_num
    constructor
    · intro h
      apply hge.mp
      omega
    · intro h
      have h4 := hge.mpr h
      omega
  exact ⟨fun h => key.mpr (le_of_lt h), key⟩

/-- Witness for C6: a voxel outside the mesh at squared distance `4` (distance `2`). -/
theorem storedByte_saturated_iff_witness :
    (none : Option Int).getD 0 ≠ 1 ∧ 0 ≤ sqrtRat 4 ∧
    (storedByte sqrtRat none 4 = 255 ↔ 1 ≤ sqrtRat 4) :=
  ⟨by decide, sqrtRat_nonneg _,
    (storedByte_saturated_iff sqrtRat none 4 (by decide) (sqrtRat_nonneg _)).2⟩

end NumericLemmas

/-! ## The shader: which texel is fetched -/

section ShaderLemmas

variable {α : Type} [LinearOrderedField α] [FloorRing α]

theorem clamp_unit_range {F : Type} [LinearOrderedField F] (v : F) :
    0 ≤ clamp v 0 1 ∧ clamp v 0 1 ≤ 1 := by
  unfold clamp
  exact ⟨le_min (le_max_right _ _) zero_le_one, min_le_right _ _⟩

theorem clamp_of_mem {F : Type} [LinearOrderedField F] {v : F} (h0 : 0 ≤ v) (h1 : v ≤ 1) :
    clamp v 0 1 = v := by
  unfold clamp
  rw [max_eq_left h0, min_eq_left h1]

theorem clamp3_of_mem {F : Type} [LinearOrderedField F] {p : Vec3 F}
    (hx0 : 0 ≤ p.x) (hx1 : p.x ≤ 1) (hy0 : 0 ≤ p.y) (hy1 : p.y ≤ 1)
    (hz0 : 0 ≤ p.z) (hz1 : p.z ≤ 1) : clamp3 p 0 1 = p := by
  unfold clamp3
  rw [clamp_of_mem hx0 hx1, clamp_of_mem hy0 hy1, clamp_of_mem hz0 hz1]

/-- The integer part of a coordinate of the unit interval scaled by `N` lies in `0 .. N`. -/
theorem floor_scaled_range (N : Nat) {v : α} (h0 : 0 ≤ v) (h1 : v ≤ 1) :
    0 ≤ ⌊v * (N : α)⌋ ∧ ⌊v * (N : α)⌋ ≤ (N : Int) := by
  have hN : (0 : α) ≤ (N : α) := Nat.cast_nonneg N
  constructor
  · exact Int.floor_nonneg.mpr (mul_nonneg h0 hN)
  · have h2 : v * (N : α) ≤ ((N : Int) : α) := by
      have : v * (N : α) ≤ 1 * (N : α) := mul_le_mul_of_nonneg_right h1 hN
      simpa using this
    have h3 : ⌊v * (N : α)⌋ ≤ ⌊((N : Int) : α)⌋ := Int.floor_mono h2
    simpa using h3

/-- Below `1` the integer part of the scaled coordinate is at most `N - 1`. -/
theorem floor_scaled_lt {N : Nat} (hN : 0 < N) {v : α} (h1 : v < 1) :
    ⌊v * (N : α)⌋ < (N : Int) := by
  have hN2 : (0 : α) < (N : α) := Nat.cast_pos.mpr hN
  rw [Int.floor_lt]
  have : v * (N : α) < 1 * (N : α) := mul_lt_mul_of_pos_right h1 hN2
  simpa using this

/-- The horizontal lookup coordinate `(m + x) / N`, scaled by the width `N*N`, has the
integer part `m*N + floor(x*N)`. -/
theorem floor_column {N : Nat} (hN : 0 < N) (m : Int) (x : α) :
    ⌊((m : α) + x) / (N : α) * ((N * N : Nat) : α)⌋ = m * (N : Int) + ⌊x * (N : α)⌋ := by
  have hN2 : (N : α) ≠ 0 := Nat.cast_ne_zero.mpr (Nat.pos_iff_ne_zero.mp hN)
  have h1 : ((m : α) + x) / (N : α) * ((N * N : Nat) : α)
      = ((m * (N : Int) : Int) : α) + x * (N : α) := by
    push_cast
    field_simp
    ring
  rw [h1, Int.floor_int_add]

theorem nearestTexel_cast {size : Nat} (hs : 0 < size) (u : α) :
    (nearestTexel size u : Int) = min (max ⌊u * (size : α)⌋ 0) ((size : Int) - 1) := by
  unfold nearestTexel
  omega

theorem nearestTexel_lt {size : Nat} (hs : 0 < size) (u : α) : nearestTexel size u < size := by
  have h := nearestTexel_cast hs u
  omega

theorem firstLookup_column {N : Nat} (hN : 0 < N) (c : Vec3 α) :
    (nearestTexel (N * N) (firstLookup N c).x : Int)
      = min (max (⌊c.z * (N : α)⌋ * (N : Int) + ⌊c.x * (N : α)⌋) 0)
          ((N : Int) * (N : Int) - 1) := by
  rw [nearestTexel_cast (Nat.mul_pos hN hN)]
  unfold firstLookup
  simp only
  rw [floor_column hN]
  push_cast
  rfl

theorem secondLookup_column {N : Nat} (hN : 0 < N) (c : Vec3 α) :
    (nearestTexel (N * N) (secondLookup N c).x : Int)
      = min (max ((⌊c.z * (N : α)⌋ + 1) * (N : Int) + ⌊c.x * (N : α)⌋) 0)
          ((N : Int) * (N : Int) - 1) := by
  rw [nearestTexel_cast (Nat.mul_pos hN hN)]
  unfold secondLookup
  simp only
  rw [show ((⌊c.z * (N : α)⌋ : α) + 1 + c.x)
      = (((⌊c.z * (N : α)⌋ + 1 : Int) : α) + c.x) by push_cast; rfl, floor_column hN]
  push_cast
  rfl

theorem lookup_row {N : Nat} (hN : 0 < N) {v : α} (h0 : 0 ≤ v) (h1 : v < 1) :
    (nearestTexel N v : Int) = ⌊v * (N : α)⌋ := by
  rw [nearestTexel_cast hN]
  have h2 := (floor_scaled_range N h0 (le_of_lt h1)).1
  have h3 := floor_scaled_lt hN h1
  omega

end ShaderLemmas

section FetchTheorems

variable {α : Type} [LinearOrderedField α] [FloorRing α]

theorem firstLookup_offset {N : Nat} (hN : 0 < N) {c : Vec3 α} (hx0 : 0 ≤ c.x)
    (hx1 : c.x < 1) (hy0 : 0 ≤ c.y) (hy1 : c.y < 1) (hz0 : 0 ≤ c.z) (hz1 : c.z < 1) :
    (fetchedOffset N (firstLookup N c) : Int)
      = ⌊c.y * (N : α)⌋ * ((N : Int) * (N : Int))
        + (⌊c.z * (N : α)⌋ * (N : Int) + ⌊c.x * (N : α)⌋) := by
  have hcol := firstLookup_column hN c
  have hrow : (nearestTexel N (firstLookup N c).y : Int) = ⌊c.y * (N : α)⌋ :=
    lookup_row hN hy0 hy1
  have hz2 := (floor_scaled_range N hz0 (le_of_lt hz1)).1
  have hz3 := floor_scaled_lt hN hz1
  have hx2 := (floor_scaled_range N hx0 (le_of_lt hx1)).1
  have hx3 := floor_scaled_lt hN hx1
  have hmul : ⌊c.z * (N : α)⌋ * (N : Int) ≤ ((N : Int) - 1) * (N : Int) :=
    Int.mul_le_mul_of_nonneg_right (by omega) (by omega)
  have hmul0 : 0 ≤ ⌊c.z * (N : α)⌋ * (N : Int) := Int.mul_nonneg hz2 (by omega)
  have hring : ((N : Int) - 1) * (N : Int) = (N : Int) * (N : Int) - (N : Int) := by ring
  have hcol2 : (nearestTexel (N * N) (firstLookup N c).x : Int)
      = ⌊c.z * (N : α)⌋ * (N : Int) + ⌊c.x * (N : α)⌋ := by
    rw [hcol]
    generalize ⌊c.z * (N : α)⌋ * (N : Int) = A at *
    generalize (N : Int) * (N : Int) = M at *
    omega
  unfold fetchedOffset texelOffset
  push_cast
  rw [hcol2, hrow]

/-- C3: for `N = 32` and every point `p` of `[0,1)^3` the clamp leaves `p` unchanged and
the first texel `sampleDistanceField` fetches is the byte at offset
`floor(p.y*32)*32*32 + floor(p.z*32)*32 + floor(p.x*32)` of the uploaded buffer, which
is the index the generator computes for voxel
`(floor(p.x*32), floor(p.y*32), floor(p.z*32))`, a voxel of the grid. -/
theorem first_fetch_is_generator_voxel (atlas : Nat → UInt8) (p : Vec3 α)
    (hx0 : 0 ≤ p.x) (hx1 : p.x < 1) (hy0 : 0 ≤ p.y) (hy1 : p.y < 1)
    (hz0 : 0 ≤ p.z) (hz1 : p.z < 1) :
    (0 ≤ ⌊p.x * 32⌋ ∧ ⌊p.x * 32⌋ < 32) ∧ (0 ≤ ⌊p.y * 32⌋ ∧ ⌊p.y * 32⌋ < 32) ∧
    (0 ≤ ⌊p.z * 32⌋ ∧ ⌊p.z * 32⌋ < 32) ∧
    clamp3 p 0 1 = p ∧
    (fetchedOffset distFieldSize (firstLookup distFieldSize (clamp3 p 0 1)) : Int)
      = ⌊p.y * 32⌋ * 32 * 32 + ⌊p.z * 32⌋ * 32 + ⌊p.x * 32⌋ ∧
    (fetchedOffset distFieldSize (firstLookup distFieldSize (clamp3 p 0 1)) : Int)
      = voxelIndex 32 ⌊p.x * 32⌋ ⌊p.y * 32⌋ ⌊p.z * 32⌋ ∧
    texture2D distFieldSize atlas (firstLookup distFieldSize (clamp3 p 0 1))
      = ((atlas (voxelIndex 32 ⌊p.x * 32⌋ ⌊p.y * 32⌋ ⌊p.z * 32⌋).toNat).toNat : α)
          / 255 := by
  have hN : 0 < distFieldSize := by decide
  have hc : clamp3 p 0 1 = p :=
    clamp3_of_mem hx0 (le_of_lt hx1) hy0 (le_of_lt hy1) hz0 (le_of_lt hz1)
  have hcast : ((distFieldSize : Nat) : α) = 32 := by
    unfold distFieldSize; norm_num
  have hcastI : ((distFieldSize : Nat) : Int) = 32 := by
    unfold distFieldSize; norm_num
  have hx2 := (floor_scaled_range distFieldSize hx0 (le_of_lt hx1)).1
  have hx3 := floor_scaled_lt hN hx1
  have hy2 := (floor_scaled_range distFieldSize hy0 (le_of_lt hy1)).1
  have hy3 := floor_scaled_lt hN hy1
  have hz2 := (floor_scaled_range distFieldSize hz0 (le_of_lt hz1)).1
  have hz3 := floor_scaled_lt hN hz1
  have hoff := firstLookup_offset hN hx0 hx1 hy0 hy1 hz0 hz1
  simp only [hcast, hcastI] at hx2 hx3 hy2 hy3 hz2 hz3 hoff
  have hidx : voxelIndex 32 ⌊p.x * 32⌋ ⌊p.y * 32⌋ ⌊p.z * 32⌋
      = ⌊p.y * 32⌋ * 32 * 32 + ⌊p.z * 32⌋ * 32 + ⌊p.x * 32⌋ := by
    unfold voxelIndex wrapInt32
    omega
  have hoff2 : (fetchedOffset distFieldSize (firstLookup distFieldSize p) : Int)
      = ⌊p.y * 32⌋ * 32 * 32 + ⌊p.z * 32⌋ * 32 + ⌊p.x * 32⌋ := by
    rw [hoff]; ring
  rw [hc]
  refine ⟨⟨hx2, hx3⟩, ⟨hy2, hy3⟩, ⟨hz2, hz3⟩, rfl, hoff2, by rw [hoff2, hidx], ?_⟩
  unfold texture2D
  rw [hidx, ← hoff2, Int.toNat_ofNat]

/-- Witness for C3: the point `(1/2, 1/4, 3/4)`. -/
theorem first_fetch_is_generator_voxel_witness :
    ((0 : ℚ) ≤ 1 / 2 ∧ (1 / 2 : ℚ) < 1 ∧ (0 : ℚ) ≤ 1 / 4 ∧ (1 / 4 : ℚ) < 1 ∧
      (0 : ℚ) ≤ 3 / 4 ∧ (3 / 4 : ℚ) < 1) ∧
    (fetchedOffset distFieldSize
        (firstLookup distFieldSize (clamp3 (⟨1 / 2, 1 / 4, 3 / 4⟩ : Vec3 ℚ) 0 1)) : Int)
      = voxelIndex 32 ⌊(1 / 2 : ℚ) * 32⌋ ⌊(1 / 4 : ℚ) * 32⌋ ⌊(3 / 4 : ℚ) * 32⌋ :=
  ⟨by norm_num,
    (first_fetch_is_generator_voxel (fun _ => 0) (⟨1 / 2, 1 / 4, 3 / 4⟩ : Vec3 ℚ)
      (by norm_num) (by norm_num) (by norm_num) (by norm_num) (by norm_num)
      (by norm_num)).2.2.2.2.2.1⟩

end FetchTheorems

section SliceTheorems

variable {α : Type} [LinearOrderedField α] [FloorRing α]

/-- C7 (amended): for every `N ≥ 1` and every point `p`, both texels that
`sampleDistanceField` fetches lie inside the `N*N` by `N` texture, so the slice each
belongs to (its column divided by `N`) is in `0 .. N-1` and the byte read is one of the
`N*N*N` bytes of the buffer.  For a clamped point with `z < 1` and `x < 1` the first
lookup reads texel `floor(x*N)` of slice `floor(z*N)`, and the second reads the same
texel of slice `floor(z*N) + 1` when that slice exists; when it does not, and for both
lookups when the clamped `z` is exactly `1`, the texture's clamp-to-edge makes the
lookup read the last column `N*N - 1` of the row. -/
theorem fetched_texels_in_range (N : Nat) (hN : 1 ≤ N) (p : Vec3 α) :
    (nearestTexel (N * N) (firstLookup N (clamp3 p 0 1)).x < N * N ∧
      nearestTexel (N * N) (firstLookup N (clamp3 p 0 1)).x / N < N) ∧
    (nearestTexel (N * N) (secondLookup N (clamp3 p 0 1)).x < N * N ∧
      nearestTexel (N * N) (secondLookup N (clamp3 p 0 1)).x / N < N) ∧
    nearestTexel N (clamp3 p 0 1).y < N ∧
    fetchedOffset N (firstLookup N (clamp3 p 0 1)) < N * N * N ∧
    fetchedOffset N (secondLookup N (clamp3 p 0 1)) < N * N * N ∧
    ((clamp3 p 0 1).z = 1 →
      (nearestTexel (N * N) (firstLookup N (clamp3 p 0 1)).x : Int)
        = (N : Int) * (N : Int) - 1 ∧
      (nearestTexel (N * N) (secondLookup N (clamp3 p 0 1)).x : Int)
        = (N : Int) * (N : Int) - 1) ∧
    ((clamp3 p 0 1).z < 1 → (clamp3 p 0 1).x < 1 →
      (nearestTexel (N * N) (firstLookup N (clamp3 p 0 1)).x : Int)
        = ⌊(clamp3 p 0 1).z * (N : α)⌋ * (N : Int) + ⌊(clamp3 p 0 1).x * (N : α)⌋ ∧
      (⌊(clamp3 p 0 1).z * (N : α)⌋ + 1 < (N : Int) →
        (nearestTexel (N * N) (secondLookup N (clamp3 p 0 1)).x : Int)
          = (⌊(clamp3 p 0 1).z * (N : α)⌋ + 1) * (N : Int)
            + ⌊(clamp3 p 0 1).x * (N : α)⌋) ∧
      (⌊(clamp3 p 0 1).z * (N : α)⌋ + 1 = (N : Int) →
        (nearestTexel (N * N) (secondLookup N (clamp3 p 0 1)).x : Int)
          = (N : Int) * (N : Int) - 1)) := by
  have hpos : 0 < N := hN
  have hNN : 0 < N * N := Nat.mul_pos hpos hpos
  generalize hcdef : clamp3 p 0 1 = c
  have hcx : 0 ≤ c.x ∧ c.x ≤ 1 := by rw [← hcdef]; exact clamp_unit_range p.x
  have hcz : 0 ≤ c.z ∧ c.z ≤ 1 := by rw [← hcdef]; exact clamp_unit_range p.z
  have h1 := firstLookup_column hpos c
  have h2 := secondLookup_column hpos c
  have hx := floor_scaled_range N hcx.1 hcx.2
  have hz := floor_scaled_range N hcz.1 hcz.2
  have hc1 := nearestTexel_lt hNN (firstLookup N c).x
  have hc2 := nearestTexel_lt hNN (secondLookup N c).x
  have hr1 : nearestTexel N (firstLookup N c).y < N := nearestTexel_lt hpos _
  have hr2 : nearestTexel N (secondLookup N c).y < N := nearestTexel_lt hpos _
  have hoff : ∀ col row : Nat, col < N * N → row < N →
      texelOffset (N * N) col row < N * N * N := by
    intro col row hcol hrow
    unfold texelOffset
    have h3 : (row + 1) * (N * N) ≤ N * (N * N) := Nat.mul_le_mul_right _ hrow
    have h4 : (row + 1) * (N * N) = row * (N * N) + N * N := by ring
    have h5 : N * (N * N) = N * N * N := by ring
    omega
  have hzN : 0 ≤ ⌊c.z * (N : α)⌋ * (N : Int) := Int.mul_nonneg hz.1 (by omega)
  refine ⟨⟨hc1, Nat.div_lt_of_lt_mul hc1⟩, ⟨hc2, Nat.div_lt_of_lt_mul hc2⟩, hr1,
    hoff _ _ hc1 hr1, hoff _ _ hc2 hr2, ?_, ?_⟩
  · intro hz1
    have hfz : ⌊c.z * (N : α)⌋ = (N : Int) := by
      rw [hz1, one_mul]; exact Int.floor_natCast N
    rw [h1, h2, hfz]
    have h6 : ((N : Int) + 1) * (N : Int) = (N : Int) * (N : Int) + (N : Int) := by ring
    rw [h6]
    generalize (N : Int) * (N : Int) = M at *
    omega
  · intro hz1 hx1
    have hz3 := floor_scaled_lt hpos hz1
    have hx3 := floor_scaled_lt hpos hx1
    have hmul : ⌊c.z * (N : α)⌋ * (N : Int) ≤ ((N : Int) - 1) * (N : Int) :=
      Int.mul_le_mul_of_nonneg_right (by omega) (by omega)
    have hring : ((N : Int) - 1) * (N : Int) = (N : Int) * (N : Int) - (N : Int) := by
      ring
    have h6 : (⌊c.z * (N : α)⌋ + 1) * (N : Int)
        = ⌊c.z * (N : α)⌋ * (N : Int) + (N : Int) := by ring
    refine ⟨?_, ?_, ?_⟩
    · rw [h1]
      generalize ⌊c.z * (N : α)⌋ * (N : Int) = A at *
      generalize (N : Int) * (N : Int) = M at *
      omega
    · intro hlt
      have hmul2 : (⌊c.z * (N : α)⌋ + 1) * (N : Int) ≤ ((N : Int) - 1) * (N : Int) :=
        Int.mul_le_mul_of_nonneg_right (by omega) (by omega)
      rw [h2]
      rw [h6] at hmul2 ⊢
      generalize ⌊c.z * (N : α)⌋ * (N : Int) = A at *
      generalize (N : Int) * (N : Int) = M at *
      omega
    · intro heq
      rw [h2, heq]
      generalize (N : Int) * (N : Int) = M at *
      omega

/-- Witness for C7 (amended): `N = 32` and the point `(0, 0, 1)`. -/
theorem fetched_texels_in_range_witness :
    1 ≤ 32 ∧ (clamp3 (⟨0, 0, 1⟩ : Vec3 ℚ) 0 1).z = 1 ∧
    (nearestTexel (32 * 32) (firstLookup 32 (clamp3 (⟨0, 0, 1⟩ : Vec3 ℚ) 0 1)).x : Int)
      = ((32 : Nat) : Int) * ((32 : Nat) : Int) - 1 :=
  ⟨by decide, by norm_num [clamp3, clamp],
    ((fetched_texels_in_range 32 (by decide) (⟨0, 0, 1⟩ : Vec3 ℚ)).2.2.2.2.2.1
      (by norm_num [clamp3, clamp])).1⟩

/-- C7, counterexample: at `N = 32` and `p = (0, 0, 1)` the slice index the shader
computes is `floor(p'.z*32) = 32`, past `N - 1 = 31`, and both lookups read column
`1023` of row `0`, whereas texel `(p'.x, p'.y)` of the last slice is column `992`. -/
theorem top_slice_reads_last_column :
    ⌊(clamp3 (⟨0, 0, 1⟩ : Vec3 ℚ) 0 1).z * ((distFieldSize : Nat) : ℚ)⌋ = 32 ∧
    nearestTexel (distFieldSize * distFieldSize)
      (firstLookup distFieldSize (clamp3 (⟨0, 0, 1⟩ : Vec3 ℚ) 0 1)).x = 1023 ∧
    nearestTexel (distFieldSize * distFieldSize)
      (secondLookup distFieldSize (clamp3 (⟨0, 0, 1⟩ : Vec3 ℚ) 0 1)).x = 1023 ∧
    nearestTexel distFieldSize
      (firstLookup distFieldSize (clamp3 (⟨0, 0, 1⟩ : Vec3 ℚ) 0 1)).y = 0 ∧
    voxelTexel distFieldSize 0 0 31 = (992, 0) := by
  have hc : clamp3 (⟨0, 0, 1⟩ : Vec3 ℚ) 0 1 = ⟨0, 0, 1⟩ := by
    norm_num [clamp3, clamp]
  have hN : 0 < distFieldSize := by decide
  have h1 := firstLookup_column hN (⟨0, 0, 1⟩ : Vec3 ℚ)
  have h2 := secondLookup_column hN (⟨0, 0, 1⟩ : Vec3 ℚ)
  have h3 : (nearestTexel distFieldSize (0 : ℚ) : Int) = ⌊(0 : ℚ) * (distFieldSize : ℚ)⌋ :=
    lookup_row hN (le_refl _) (by norm_num)
  have hf : ⌊(1 : ℚ) * ((distFieldSize : Nat) : ℚ)⌋ = 32 := by
    norm_num [distFieldSize]
  rw [hc]
  simp only [hf, zero_mul, Int.floor_zero] at h1 h2 h3
  have hI : ((distFieldSize : Nat) : Int) = 32 := by norm_num [distFieldSize]
  rw [hI] at h1 h2
  norm_num at h1 h2
  refine ⟨hf, ?_, ?_, ?_, by decide⟩
  · omega
  · omega
  · simp only [firstLookup]
    omega

end SliceTheorems

/-! ## The shader: the sampled value and the march -/

section MarchTheorems

variable {α : Type} [LinearOrderedField α] [FloorRing α]

theorem texture2D_nonneg (N : Nat) (atlas : Nat → UInt8) (uv : Vec2 α) :
    0 ≤ texture2D N atlas uv := by
  unfold texture2D
  positivity

theorem fract_range (v : α) : 0 ≤ fract v ∧ fract v < 1 := by
  unfold fract
  have h1 := Int.floor_le v
  have h2 := Int.lt_floor_add_one v
  constructor <;> linarith

theorem mix_between {F : Type} [LinearOrderedField F] (a b : F) {t : F}
    (h0 : 0 ≤ t) (h1 : t ≤ 1) :
    min a b ≤ mix a b t ∧ mix a b t ≤ max a b := by
  unfold mix
  have h2 : 0 ≤ 1 - t := by linarith
  have ha1 : min a b ≤ a := min_le_left _ _
  have hb1 : min a b ≤ b := min_le_right _ _
  have ha2 : a ≤ max a b := le_max_left _ _
  have hb2 : b ≤ max a b := le_max_right _ _
  constructor
  · have e : min a b = min a b * (1 - t) + min a b * t := by ring
    rw [e]
    exact add_le_add (mul_le_mul_of_nonneg_right ha1 h2)
      (mul_le_mul_of_nonneg_right hb1 h0)
  · have e : max a b = max a b * (1 - t) + max a b * t := by ring
    rw [e]
    exact add_le_add (mul_le_mul_of_nonneg_right ha2 h2)
      (mul_le_mul_of_nonneg_right hb2 h0)

theorem clamp3_idem {F : Type} [LinearOrderedField F] (p : Vec3 F) :
    clamp3 (clamp3 p 0 1) 0 1 = clamp3 p 0 1 :=
  clamp3_of_mem (clamp_unit_range p.x).1 (clamp_unit_range p.x).2
    (clamp_unit_range p.y).1 (clamp_unit_range p.y).2
    (clamp_unit_range p.z).1 (clamp_unit_range p.z).2

theorem dot_sub_self {F : Type} [LinearOrderedField F] (p : Vec3 F) :
    dot (p.sub p) (p.sub p) = 0 := by
  simp [dot, Vec3.sub]

/-- The interpolated part of the sample is a value between the two texels. -/
theorem interpolation_between (N : Nat) (atlas : Nat → UInt8) (c : Vec3 α) :
    min (texture2D N atlas (firstLookup N c)) (texture2D N atlas (secondLookup N c))
      ≤ mix (texture2D N atlas (firstLookup N c)) (texture2D N atlas (secondLookup N c))
          (fract (c.z * (N : α))) ∧
    mix (texture2D N atlas (firstLookup N c)) (texture2D N atlas (secondLookup N c))
          (fract (c.z * (N : α)))
      ≤ max (texture2D N atlas (firstLookup N c)) (texture2D N atlas (secondLookup N c)) :=
  mix_between _ _ (fract_range _).1 (le_of_lt (fract_range _).2)

theorem interpolation_nonneg (N : Nat) (atlas : Nat → UInt8) (c : Vec3 α) :
    0 ≤ mix (texture2D N atlas (firstLookup N c)) (texture2D N atlas (secondLookup N c))
          (fract (c.z * (N : α))) :=
  le_trans (le_min (texture2D_nonneg _ _ _) (texture2D_nonneg _ _ _))
    (interpolation_between N atlas c).1

theorem sampleDistanceField_nonneg {sqrt : α → α} (hnn : ∀ v, 0 ≤ sqrt v) (N : Nat)
    (atlas : Nat → UInt8) (p : Vec3 α) : 0 ≤ sampleDistanceField sqrt N atlas p := by
  unfold sampleDistanceField
  exact add_nonneg (hnn _) (interpolation_nonneg N atlas _)

theorem sampleDistanceField_zero_atlas (sqrt : α → α) (N : Nat) (p : Vec3 α) :
    sampleDistanceField sqrt N (fun _ => 0) p
      = sqrt (dot (p.sub (clamp3 p 0 1)) (p.sub (clamp3 p 0 1))) := by
  simp [sampleDistanceField, texture2D, mix]

theorem marchLoop_eq_iterate (sqrt : α → α) (N : Nat) (atlas : Nat → UInt8)
    (origin dir : Vec3 α) (k : Nat) (t : α) :
    marchLoop sqrt N atlas origin dir k t
      = Nat.iterate (marchStep sqrt N atlas origin dir) k t := by
  induction k generalizing t with
  | zero => rfl
  | succ n ih =>
    rw [Function.iterate_succ_apply]
    exact ih _

theorem marchLoop_fixed (sqrt : α → α) (N : Nat) (atlas : Nat → UInt8)
    (origin dir : Vec3 α) (k : Nat) {t : α}
    (h : marchStep sqrt N atlas origin dir t = t) :
    marchLoop sqrt N atlas origin dir k t = t := by
  induction k with
  | zero => rfl
  | succ n ih =>
    show marchLoop sqrt N atlas origin dir n (marchStep sqrt N atlas origin dir t) = t
    rw [h]
    exact ih

theorem add_scale_zero {F : Type} [LinearOrderedField F] (origin dir : Vec3 F) :
    origin.add (Vec3.scale 0 dir) = origin := by
  simp [Vec3.add, Vec3.scale]

/-- C8 (amended): for a field in which every voxel is 0 and a ray origin inside the
closed unit cube, `march` returns `t = 0` for every direction, and so does the loop for
every step count `K` (the square root of `0` being `0`). -/
theorem march_zero_field_inside (sqrt : α → α) (N : Nat) (origin dir : Vec3 α) (K : Nat)
    (hzero : sqrt 0 = 0) (hx0 : 0 ≤ origin.x) (hx1 : origin.x ≤ 1) (hy0 : 0 ≤ origin.y)
    (hy1 : origin.y ≤ 1) (hz0 : 0 ≤ origin.z) (hz1 : origin.z ≤ 1) :
    marchLoop sqrt N (fun _ => 0) origin dir K 0 = 0 ∧
    march sqrt N (fun _ => 0) origin dir = 0 := by
  have hstep : marchStep sqrt N (fun _ => 0) origin dir 0 = 0 := by
    unfold marchStep
    rw [add_scale_zero, sampleDistanceField_zero_atlas,
      clamp3_of_mem hx0 hx1 hy0 hy1 hz0 hz1, dot_sub_self, hzero, add_zero]
  exact ⟨marchLoop_fixed sqrt N _ origin dir K hstep,
    marchLoop_fixed sqrt N _ origin dir 10 hstep⟩

/-- Witness for C8 (amended): the origin `(1/2, 1/2, 1/2)`, direction `(1, 0, 0)`, `K = 3`. -/
theorem march_zero_field_inside_witness :
    sqrtRat 0 = 0 ∧
    ((0 : ℚ) ≤ 1 / 2 ∧ (1 / 2 : ℚ) ≤ 1) ∧
    marchLoop sqrtRat distFieldSize (fun _ => 0) (⟨1 / 2, 1 / 2, 1 / 2⟩ : Vec3 ℚ)
      ⟨1, 0, 0⟩ 3 0 = 0 :=
  ⟨sqrtRat_zero, by norm_num,
    (march_zero_field_inside sqrtRat distFieldSize (⟨1 / 2, 1 / 2, 1 / 2⟩ : Vec3 ℚ)
      ⟨1, 0, 0⟩ 3 sqrtRat_zero (by norm_num) (by norm_num) (by norm_num) (by norm_num)
      (by norm_num) (by norm_num)).1⟩

/-- C8, counterexample: in the all-zero field the ray from the origin `(2, 0, 0)`,
outside the unit cube, in the direction `(-1, 0, 0)` makes `march` return `1`, the
distance from the origin to the cube, not `0`. -/
theorem march_zero_field_outside :
    march sqrtRat distFieldSize (fun _ => 0) (⟨2, 0, 0⟩ : Vec3 ℚ) ⟨-1, 0, 0⟩ = 1 := by
  have hsample : ∀ t : ℚ, marchStep sqrtRat distFieldSize (fun _ => 0)
      (⟨2, 0, 0⟩ : Vec3 ℚ) ⟨-1, 0, 0⟩ t
      = t + sqrtRat (dot
          ((Vec3.add (⟨2, 0, 0⟩ : Vec3 ℚ) (Vec3.scale t ⟨-1, 0, 0⟩)).sub
            (clamp3 (Vec3.add (⟨2, 0, 0⟩ : Vec3 ℚ) (Vec3.scale t ⟨-1, 0, 0⟩)) 0 1))
          ((Vec3.add (⟨2, 0, 0⟩ : Vec3 ℚ) (Vec3.scale t ⟨-1, 0, 0⟩)).sub
            (clamp3 (Vec3.add (⟨2, 0, 0⟩ : Vec3 ℚ) (Vec3.scale t ⟨-1, 0, 0⟩)) 0 1))) := by
    intro t
    unfold marchStep
    rw [sampleDistanceField_zero_atlas]
  have h0 : marchStep sqrtRat distFieldSize (fun _ => 0)
      (⟨2, 0, 0⟩ : Vec3 ℚ) ⟨-1, 0, 0⟩ 0 = 1 := by
    rw [hsample]
    norm_num [Vec3.add, Vec3.scale, Vec3.sub, clamp3, clamp, dot, sqrtRat_one]
  have h1 : marchStep sqrtRat distFieldSize (fun _ => 0)
      (⟨2, 0, 0⟩ : Vec3 ℚ) ⟨-1, 0, 0⟩ 1 = 1 := by
    rw [hsample]
    norm_num [Vec3.add, Vec3.scale, Vec3.sub, clamp3, clamp, dot, sqrtRat_zero]
  show marchLoop sqrtRat distFieldSize (fun _ => 0) (⟨2, 0, 0⟩ : Vec3 ℚ) ⟨-1, 0, 0⟩ 9
    (marchStep sqrtRat distFieldSize (fun _ => 0) (⟨2, 0, 0⟩ : Vec3 ℚ) ⟨-1, 0, 0⟩ 0) = 1
  rw [h0]
  exact marchLoop_fixed sqrtRat distFieldSize _ _ _ 9 h1

end MarchTheorems

section SampleTheorems

variable {α : Type} [LinearOrderedField α] [FloorRing α]

theorem marchStep_ge {sqrt : α → α} (hnn : ∀ v, 0 ≤ sqrt v) (N : Nat)
    (atlas : Nat → UInt8) (origin dir : Vec3 α) (t : α) :
    t ≤ marchStep sqrt N atlas origin dir t := by
  unfold marchStep
  exact le_add_of_nonneg_right (sampleDistanceField_nonneg hnn N atlas _)

/-- C9: for every atlas, origin and direction, `march` is the result of exactly ten
updates `t := t + sampleDistanceField(origin + t*dir)` applied one after the other to
`t = 0`, hence the sum of the ten samples taken; with a square root that is never
negative the accumulated `t` never decreases from one update to the next, and the
returned `t` is non-negative. -/
theorem march_ten_updates (sqrt : α → α) (N : Nat) (atlas : Nat → UInt8)
    (origin dir : Vec3 α) (hnn : ∀ v, 0 ≤ sqrt v) :
    march sqrt N atlas origin dir
      = Nat.iterate (marchStep sqrt N atlas origin dir) 10 0 ∧
    march sqrt N atlas origin dir
      = Finset.sum (Finset.range 10) (fun i =>
          sampleDistanceField sqrt N atlas
            (origin.add (Vec3.scale (Nat.iterate (marchStep sqrt N atlas origin dir) i 0)
              dir))) ∧
    (∀ k : Nat, Nat.iterate (marchStep sqrt N atlas origin dir) k 0
      ≤ Nat.iterate (marchStep sqrt N atlas origin dir) (k + 1) 0) ∧
    0 ≤ march sqrt N atlas origin dir := by
  have hit : march sqrt N atlas origin dir
      = Nat.iterate (marchStep sqrt N atlas origin dir) 10 0 :=
    marchLoop_eq_iterate sqrt N atlas origin dir 10 0
  have hmono : ∀ k : Nat, Nat.iterate (marchStep sqrt N atlas origin dir) k 0
      ≤ Nat.iterate (marchStep sqrt N atlas origin dir) (k + 1) 0 := by
    intro k
    rw [Function.iterate_succ_apply']
    exact marchStep_ge hnn N atlas origin dir _
  have hsum : ∀ n : Nat, Nat.iterate (marchStep sqrt N atlas origin dir) n 0
      = Finset.sum (Finset.range n) (fun i =>
          sampleDistanceField sqrt N atlas
            (origin.add (Vec3.scale (Nat.iterate (marchStep sqrt N atlas origin dir) i 0)
              dir))) := by
    intro n
    induction n with
    | zero => simp
    | succ m ih =>
      rw [Finset.sum_range_succ, ← ih, Function.iterate_succ_apply']
      rfl
  have hnonneg : ∀ k : Nat, 0 ≤ Nat.iterate (marchStep sqrt N atlas origin dir) k 0 := by
    intro k
    induction k with
    | zero => exact le_refl _
    | succ m ih => exact le_trans ih (hmono m)
  refine ⟨hit, ?_, hmono, ?_⟩
  · rw [hit]; exact hsum 10
  · rw [hit]; exact hnonneg 10

/-- Witness for C9: the all-zero atlas and the ray from `(1/2, 1/2, 1/2)`, inside the
cube, in the direction `(0, 0, 1)`, which leaves the cube. -/
theorem march_ten_updates_witness :
    (∀ v : ℚ, 0 ≤ sqrtRat v) ∧
    0 ≤ march sqrtRat distFieldSize (fun _ => 0) (⟨1 / 2, 1 / 2, 1 / 2⟩ : Vec3 ℚ)
      ⟨0, 0, 1⟩ :=
  ⟨sqrtRat_nonneg,
    (march_ten_updates sqrtRat distFieldSize (fun _ => 0) (⟨1 / 2, 1 / 2, 1 / 2⟩ : Vec3 ℚ)
      ⟨0, 0, 1⟩ sqrtRat_nonneg).2.2.2⟩

/-- C10: for every point `p` and every atlas, with `p'` the point `p` clamped
componentwise to `[0, 1]`, `sampleDistanceField(p)` is the Euclidean distance from `p`
to `p'` plus `sampleDistanceField(p')`, hence at least that distance; and for `p`
inside the cube the distance term is `0` and the result is
`mix(d1, d2, fract(p.z*N))` of the two texels, a value between them. -/
theorem sample_is_distance_plus_surface (sqrt : α → α) (N : Nat) (atlas : Nat → UInt8)
    (p : Vec3 α) (hzero : sqrt 0 = 0) (hnn : ∀ v, 0 ≤ sqrt v) :
    sampleDistanceField sqrt N atlas p
      = sqrt (dot (p.sub (clamp3 p 0 1)) (p.sub (clamp3 p 0 1)))
        + sampleDistanceField sqrt N atlas (clamp3 p 0 1) ∧
    sqrt (dot (p.sub (clamp3 p 0 1)) (p.sub (clamp3 p 0 1)))
      ≤ sampleDistanceField sqrt N atlas p ∧
    (0 ≤ p.x ∧ p.x ≤ 1 ∧ 0 ≤ p.y ∧ p.y ≤ 1 ∧ 0 ≤ p.z ∧ p.z ≤ 1 →
      sqrt (dot (p.sub (clamp3 p 0 1)) (p.sub (clamp3 p 0 1))) = 0 ∧
      sampleDistanceField sqrt N atlas p
        = mix (texture2D N atlas (firstLookup N p)) (texture2D N atlas (secondLookup N p))
            (fract (p.z * (N : α))) ∧
      min (texture2D N atlas (firstLookup N p)) (texture2D N atlas (secondLookup N p))
        ≤ sampleDistanceField sqrt N atlas p ∧
      sampleDistanceField sqrt N atlas p
        ≤ max (texture2D N atlas (firstLookup N p))
            (texture2D N atlas (secondLookup N p))) := by
  have hsurf : sampleDistanceField sqrt N atlas (clamp3 p 0 1)
      = mix (texture2D N atlas (firstLookup N (clamp3 p 0 1)))
          (texture2D N atlas (secondLookup N (clamp3 p 0 1)))
          (fract ((clamp3 p 0 1).z * (N : α))) := by
    unfold sampleDistanceField
    simp only [clamp3_idem, dot_sub_self, hzero, zero_add]
  have hsplit : sampleDistanceField sqrt N atlas p
      = sqrt (dot (p.sub (clamp3 p 0 1)) (p.sub (clamp3 p 0 1)))
        + sampleDistanceField sqrt N atlas (clamp3 p 0 1) := by
    rw [hsurf]
    rfl
  refine ⟨hsplit, ?_, ?_⟩
  · rw [hsplit]
    exact le_add_of_nonneg_right (sampleDistanceField_nonneg hnn N atlas _)
  · rintro ⟨hx0, hx1, hy0, hy1, hz0, hz1⟩
    have hc := clamp3_of_mem hx0 hx1 hy0 hy1 hz0 hz1
    have hd : sqrt (dot (p.sub (clamp3 p 0 1)) (p.sub (clamp3 p 0 1))) = 0 := by
      rw [hc, dot_sub_self, hzero]
    have hval : sampleDistanceField sqrt N atlas p
        = mix (texture2D N atlas (firstLookup N p)) (texture2D N atlas (secondLookup N p))
            (fract (p.z * (N : α))) := by
      rw [hsplit, hd, zero_add, hsurf, hc]
    refine ⟨hd, hval, ?_, ?_⟩
    · rw [hval]; exact (interpolation_between N atlas p).1
    · rw [hval]; exact (interpolation_between N atlas p).2

/-- Witness for C10: the all-zero atlas and the point `(2, 0, 0)`, at distance `1` from
the cube. -/
theorem sample_is_distance_plus_surface_witness :
    sqrtRat 0 = 0 ∧ (∀ v : ℚ, 0 ≤ sqrtRat v) ∧
    sampleDistanceField sqrtRat distFieldSize (fun _ => 0) (⟨2, 0, 0⟩ : Vec3 ℚ)
      = sqrtRat (dot ((⟨2, 0, 0⟩ : Vec3 ℚ).sub (clamp3 ⟨2, 0, 0⟩ 0 1))
          ((⟨2, 0, 0⟩ : Vec3 ℚ).sub (clamp3 ⟨2, 0, 0⟩ 0 1)))
        + sampleDistanceField sqrtRat distFieldSize (fun _ => 0)
            (clamp3 (⟨2, 0, 0⟩ : Vec3 ℚ) 0 1) :=
  ⟨sqrtRat_zero, sqrtRat_nonneg,
    (sample_is_distance_plus_surface sqrtRat distFieldSize (fun _ => 0)
      (⟨2, 0, 0⟩ : Vec3 ℚ) sqrtRat_zero sqrtRat_nonneg).1⟩

end SampleTheorems

/-! ## The bounding box and the normalisation -/

section NormalizerLemmas

variable {α : Type} [LinearOrderedField α]

theorem stdMin_fin (a b : α) : Ext.stdMin (Ext.fin a) (Ext.fin b) = Ext.fin (min a b) := by
  unfold Ext.stdMin Ext.lt
  by_cases h : b < a
  · simp [h, min_eq_right (le_of_lt h)]
  · simp [h, min_eq_left (not_lt.mp h)]

theorem stdMax_fin (a b : α) : Ext.stdMax (Ext.fin a) (Ext.fin b) = Ext.fin (max a b) := by
  unfold Ext.stdMax Ext.lt
  by_cases h : a < b
  · simp [h, max_eq_right (le_of_lt h)]
  · simp [h, max_eq_left (not_lt.mp h)]

theorem aabbStep_fin (lo hi v : Vec3 α) :
    aabbStep ⟨finVec lo, finVec hi⟩ (finVec v)
      = ⟨finVec ⟨min v.x lo.x, min v.y lo.y, min v.z lo.z⟩,
          finVec ⟨max v.x hi.x, max v.y hi.y, max v.z hi.z⟩⟩ := by
  simp [aabbStep, finVec, stdMin_fin, stdMax_fin]

theorem aabbStep_first (v : Vec3 α) :
    aabbStep ⟨⟨.posInf, .posInf, .posInf⟩, aiNeg ⟨.posInf, .posInf, .posInf⟩⟩ (finVec v)
      = ⟨finVec v, finVec v⟩ := by
  simp [aabbStep, finVec, aiNeg, Ext.neg, Ext.stdMin, Ext.stdMax, Ext.lt]

theorem foldl_aabbStep_fin (l : List (Vec3 α)) (lo hi : Vec3 α) :
    (l.map finVec).foldl aabbStep ⟨finVec lo, finVec hi⟩
      = ⟨finVec ⟨l.foldl (fun m v => min v.x m) lo.x, l.foldl (fun m v => min v.y m) lo.y,
            l.foldl (fun m v => min v.z m) lo.z⟩,
          finVec ⟨l.foldl (fun m v => max v.x m) hi.x, l.foldl (fun m v => max v.y m) hi.y,
            l.foldl (fun m v => max v.z m) hi.z⟩⟩ := by
  induction l generalizing lo hi with
  | nil => rfl
  | cons v rest ih =>
    simp only [List.map_cons, List.foldl_cons]
    rw [aabbStep_fin, ih]

theorem computeAABB_cons (v0 : Vec3 α) (rest : List (Vec3 α)) :
    computeAABB ((v0 :: rest).map finVec)
      = ⟨finVec ⟨rest.foldl (fun m v => min v.x m) v0.x,
            rest.foldl (fun m v => min v.y m) v0.y, rest.foldl (fun m v => min v.z m) v0.z⟩,
          finVec ⟨rest.foldl (fun m v => max v.x m) v0.x,
            rest.foldl (fun m v => max v.y m) v0.y,
            rest.foldl (fun m v => max v.z m) v0.z⟩⟩ := by
  unfold computeAABB
  simp only [List.map_cons, List.foldl_cons]
  rw [aabbStep_first, foldl_aabbStep_fin]

theorem foldl_min_spec {β : Type} (f : β → α) (l : List β) (m0 : α) :
    l.foldl (fun m v => min (f v) m) m0 ≤ m0 ∧
    (∀ v ∈ l, l.foldl (fun m v => min (f v) m) m0 ≤ f v) ∧
    (l.foldl (fun m v => min (f v) m) m0 = m0 ∨
      ∃ v ∈ l, f v = l.foldl (fun m v => min (f v) m) m0) := by
  induction l generalizing m0 with
  | nil => simp
  | cons a rest ih =>
    simp only [List.foldl_cons]
    obtain ⟨h1, h2, h3⟩ := ih (min (f a) m0)
    refine ⟨le_trans h1 (min_le_right _ _), ?_, ?_⟩
    · intro v hv
      rcases List.mem_cons.mp hv with rfl | hv
      · exact le_trans h1 (min_le_left _ _)
      · exact h2 v hv
    · rcases h3 with h3 | ⟨v, hv, h3⟩
      · rcases min_choice (f a) m0 with hc | hc
        · exact Or.inr ⟨a, List.mem_cons_self _ _, by rw [h3, hc]⟩
        · exact Or.inl (by rw [h3, hc])
      · exact Or.inr ⟨v, List.mem_cons_of_mem _ hv, h3⟩

theorem foldl_max_spec {β : Type} (f : β → α) (l : List β) (m0 : α) :
    m0 ≤ l.foldl (fun m v => max (f v) m) m0 ∧
    (∀ v ∈ l, f v ≤ l.foldl (fun m v => max (f v) m) m0) ∧
    (l.foldl (fun m v => max (f v) m) m0 = m0 ∨
      ∃ v ∈ l, f v = l.foldl (fun m v => max (f v) m) m0) := by
  induction l generalizing m0 with
  | nil => simp
  | cons a rest ih =>
    simp only [List.foldl_cons]
    obtain ⟨h1, h2, h3⟩ := ih (max (f a) m0)
    refine ⟨le_trans (le_max_right _ _) h1, ?_, ?_⟩
    · intro v hv
      rcases List.mem_cons.mp hv with rfl | hv
      · exact le_trans (le_max_left _ _) h1
      · exact h2 v hv
    · rcases h3 with h3 | ⟨v, hv, h3⟩
      · rcases max_choice (f a) m0 with hc | hc
        · exact Or.inr ⟨a, List.mem_cons_self _ _, by rw [h3, hc]⟩
        · exact Or.inl (by rw [h3, hc])
      · exact Or.inr ⟨v, List.mem_cons_of_mem _ hv, h3⟩

/-- The minimum folded over a list that starts with the seed is a lower bound of the
list and the coordinate of one of its elements. -/
theorem foldl_min_cons {β : Type} (f : β → α) (v0 : β) (rest : List β) :
    (∀ v ∈ v0 :: rest, rest.foldl (fun m v => min (f v) m) (f v0) ≤ f v) ∧
    ∃ v ∈ v0 :: rest, f v = rest.foldl (fun m v => min (f v) m) (f v0) := by
  obtain ⟨h1, h2, h3⟩ := foldl_min_spec f rest (f v0)
  constructor
  · intro v hv
    rcases List.mem_cons.mp hv with rfl | hv
    · exact h1
    · exact h2 v hv
  · rcases h3 with h3 | ⟨v, hv, h3⟩
    · exact ⟨v0, List.mem_cons_self _ _, h3.symm⟩
    · exact ⟨v, List.mem_cons_of_mem _ hv, h3⟩

theorem foldl_max_cons {β : Type} (f : β → α) (v0 : β) (rest : List β) :
    (∀ v ∈ v0 :: rest, f v ≤ rest.foldl (fun m v => max (f v) m) (f v0)) ∧
    ∃ v ∈ v0 :: rest, f v = rest.foldl (fun m v => max (f v) m) (f v0) := by
  obtain ⟨h1, h2, h3⟩ := foldl_max_spec f rest (f v0)
  constructor
  · intro v hv
    rcases List.mem_cons.mp hv with rfl | hv
    · exact h1
    · exact h2 v hv
  · rcases h3 with h3 | ⟨v, hv, h3⟩
    · exact ⟨v0, List.mem_cons_self _ _, h3.symm⟩
    · exact ⟨v, List.mem_cons_of_mem _ hv, h3⟩

theorem normalizeCoord_bounds {lo hi L v : α} (hL : 0 < L) (hext : hi - lo ≤ L)
    (h1 : lo ≤ v) (h2 : v ≤ hi) :
    1 / 10 ≤ normalizeCoord lo hi L v ∧ normalizeCoord lo hi L v ≤ 9 / 10 := by
  unfold normalizeCoord
  have hs : 0 < 4 / 5 / L := by positivity
  have hsL : L * (4 / 5 / L) = 4 / 5 := by field_simp; ring
  have ha : -(L / 2) ≤ v - (hi + lo) * (1 / 2) := by linarith
  have hb : v - (hi + lo) * (1 / 2) ≤ L / 2 := by linarith
  have ha2 := mul_le_mul_of_nonneg_right ha (le_of_lt hs)
  have hb2 := mul_le_mul_of_nonneg_right hb (le_of_lt hs)
  have e1 : -(L / 2) * (4 / 5 / L) = -(2 / 5) := by
    rw [show -(L / 2) * (4 / 5 / L) = -(L * (4 / 5 / L)) / 2 by ring, hsL]; norm_num
  have e2 : L / 2 * (4 / 5 / L) = 2 / 5 := by
    rw [show L / 2 * (4 / 5 / L) = (L * (4 / 5 / L)) / 2 by ring, hsL]; norm_num
  rw [e1] at ha2
  rw [e2] at hb2
  constructor <;> linarith

theorem normalizeCoord_ends {lo hi L : α} (hL : 0 < L) (hext : hi - lo = L) :
    normalizeCoord lo hi L lo = 1 / 10 ∧ normalizeCoord lo hi L hi = 9 / 10 := by
  unfold normalizeCoord
  have hsL : L * (4 / 5 / L) = 4 / 5 := by field_simp; ring
  have e1 : lo - (hi + lo) * (1 / 2) = -(L / 2) := by rw [← hext]; ring
  have e2 : hi - (hi + lo) * (1 / 2) = L / 2 := by rw [← hext]; ring
  rw [e1, e2]
  have e3 : -(L / 2) * (4 / 5 / L) = -(2 / 5) := by
    rw [show -(L / 2) * (4 / 5 / L) = -(L * (4 / 5 / L)) / 2 by ring, hsL]; norm_num
  have e4 : L / 2 * (4 / 5 / L) = 2 / 5 := by
    rw [show L / 2 * (4 / 5 / L) = (L * (4 / 5 / L)) / 2 by ring, hsL]; norm_num
  rw [e3, e4]
  constructor <;> norm_num

theorem normalizeCoord_centre (lo hi L : α) :
    normalizeCoord lo hi L ((hi + lo) * (1 / 2)) = 1 / 2 := by
  unfold normalizeCoord
  simp

theorem ext_add_fin (a b : α) : Ext.add (Ext.fin a) (Ext.fin b) = Ext.fin (a + b) := rfl

theorem ext_sub_fin (a b : α) : Ext.sub (Ext.fin a) (Ext.fin b) = Ext.fin (a - b) := by
  simp [Ext.sub, Ext.neg, Ext.add, sub_eq_add_neg]

theorem ext_mul_fin (a b : α) : Ext.mul (Ext.fin a) (Ext.fin b) = Ext.fin (a * b) := rfl

theorem ext_div_fin (a : α) {b : α} (hb : b ≠ 0) :
    Ext.div (Ext.fin a) (Ext.fin b) = Ext.fin (a / b) := by
  simp [Ext.div, hb]

theorem largestExtent_fin (lo hi : Vec3 α) :
    largestExtent (⟨finVec lo, finVec hi⟩ : AABB α)
      = Ext.fin (max (hi.x - lo.x) (max (hi.y - lo.y) (hi.z - lo.z))) := by
  simp only [largestExtent, aabbExtents, aiSub, finVec, ext_sub_fin, stdMax_fin]

/-- With a finite box and a non-zero largest extent the float computation of line 82 is
the exact formula on every coordinate. -/
theorem normalizePoint_fin (lo hi v : Vec3 α)
    (hL : max (hi.x - lo.x) (max (hi.y - lo.y) (hi.z - lo.z)) ≠ 0) :
    normalizePoint ⟨finVec lo, finVec hi⟩ (finVec v)
      = finVec
          ⟨normalizeCoord lo.x hi.x (max (hi.x - lo.x) (max (hi.y - lo.y) (hi.z - lo.z)))
              v.x,
            normalizeCoord lo.y hi.y (max (hi.x - lo.x) (max (hi.y - lo.y) (hi.z - lo.z)))
              v.y,
            normalizeCoord lo.z hi.z (max (hi.x - lo.x) (max (hi.y - lo.y) (hi.z - lo.z)))
              v.z⟩ := by
  have hscale : aabbScale (⟨finVec lo, finVec hi⟩ : AABB α)
      = Ext.fin (4 / 5 / max (hi.x - lo.x) (max (hi.y - lo.y) (hi.z - lo.z))) := by
    unfold aabbScale
    rw [largestExtent_fin, ext_div_fin _ hL]
  unfold normalizePoint
  rw [hscale]
  simp only [aabbOrigin, aiAdd, aiSub, aiScale, finVec, ext_add_fin, ext_sub_fin,
    ext_mul_fin, normalizeCoord]

end NormalizerLemmas

section NormalizerTheorems

variable {α : Type} [LinearOrderedField α]

/-- C11: for every non-empty vertex set whose largest bounding-box extent `L` is
positive, `computeAABB` returns the finite box `[lo, hi]` that contains every vertex,
the scale factor is `0.8 / L`, the normalisation `v ↦ (v - centre) * (0.8 / L) + 0.5`
maps the centre of the box to `(0.5, 0.5, 0.5)` and every vertex into `[0.1, 0.9]^3`,
and on every axis whose extent is `L` (there is one) some vertex is mapped to `0.1` and
some vertex to `0.9` (exact arithmetic). -/
theorem normalization_fits_unit_cube (vs : List (Vec3 α)) (hne : vs ≠ [])
    (hpos : Ext.lt (Ext.fin 0) (largestExtent (computeAABB (vs.map finVec))) = true) :
    ∃ lo hi : Vec3 α, ∃ L : α,
      computeAABB (vs.map finVec) = ⟨finVec lo, finVec hi⟩ ∧
      (∀ v ∈ vs, (lo.x ≤ v.x ∧ v.x ≤ hi.x) ∧ (lo.y ≤ v.y ∧ v.y ≤ hi.y) ∧
        (lo.z ≤ v.z ∧ v.z ≤ hi.z)) ∧
      largestExtent (computeAABB (vs.map finVec)) = Ext.fin L ∧ 0 < L ∧
      L = max (hi.x - lo.x) (max (hi.y - lo.y) (hi.z - lo.z)) ∧
      aabbScale (computeAABB (vs.map finVec)) = Ext.fin (4 / 5 / L) ∧
      aabbOrigin (computeAABB (vs.map finVec))
        = finVec ⟨(hi.x + lo.x) * (1 / 2), (hi.y + lo.y) * (1 / 2), (hi.z + lo.z) * (1 / 2)⟩ ∧
      normalizePoint (computeAABB (vs.map finVec))
          (aabbOrigin (computeAABB (vs.map finVec)))
        = finVec ⟨1 / 2, 1 / 2, 1 / 2⟩ ∧
      normalizedVertices (vs.map finVec)
        = vs.map (fun v => finVec ⟨normalizeCoord lo.x hi.x L v.x,
            normalizeCoord lo.y hi.y L v.y, normalizeCoord lo.z hi.z L v.z⟩) ∧
      (∀ v ∈ vs,
        (1 / 10 ≤ normalizeCoord lo.x hi.x L v.x ∧ normalizeCoord lo.x hi.x L v.x ≤ 9 / 10) ∧
        (1 / 10 ≤ normalizeCoord lo.y hi.y L v.y ∧ normalizeCoord lo.y hi.y L v.y ≤ 9 / 10) ∧
        (1 / 10 ≤ normalizeCoord lo.z hi.z L v.z ∧
          normalizeCoord lo.z hi.z L v.z ≤ 9 / 10)) ∧
      (hi.x - lo.x = L ∨ hi.y - lo.y = L ∨ hi.z - lo.z = L) ∧
      (hi.x - lo.x = L →
        (∃ v ∈ vs, normalizeCoord lo.x hi.x L v.x = 1 / 10) ∧
        (∃ v ∈ vs, normalizeCoord lo.x hi.x L v.x = 9 / 10)) ∧
      (hi.y - lo.y = L →
        (∃ v ∈ vs, normalizeCoord lo.y hi.y L v.y = 1 / 10) ∧
        (∃ v ∈ vs, normalizeCoord lo.y hi.y L v.y = 9 / 10)) ∧
      (hi.z - lo.z = L →
        (∃ v ∈ vs, normalizeCoord lo.z hi.z L v.z = 1 / 10) ∧
        (∃ v ∈ vs, normalizeCoord lo.z hi.z L v.z = 9 / 10)) := by
  obtain ⟨v0, rest, rfl⟩ := List.exists_cons_of_ne_nil hne
  have hbox := computeAABB_cons v0 rest
  obtain ⟨hxlo, hxlo2⟩ := foldl_min_cons (fun v : Vec3 α => v.x) v0 rest
  obtain ⟨hylo, hylo2⟩ := foldl_min_cons (fun v : Vec3 α => v.y) v0 rest
  obtain ⟨hzlo, hzlo2⟩ := foldl_min_cons (fun v : Vec3 α => v.z) v0 rest
  obtain ⟨hxhi, hxhi2⟩ := foldl_max_cons (fun v : Vec3 α => v.x) v0 rest
  obtain ⟨hyhi, hyhi2⟩ := foldl_max_cons (fun v : Vec3 α => v.y) v0 rest
  obtain ⟨hzhi, hzhi2⟩ := foldl_max_cons (fun v : Vec3 α => v.z) v0 rest
  generalize hlo : (⟨rest.foldl (fun m v => min v.x m) v0.x,
      rest.foldl (fun m v => min v.y m) v0.y,
      rest.foldl (fun m v => min v.z m) v0.z⟩ : Vec3 α) = lo at hbox
  generalize hhi : (⟨rest.foldl (fun m v => max v.x m) v0.x,
      rest.foldl (fun m v => max v.y m) v0.y,
      rest.foldl (fun m v => max v.z m) v0.z⟩ : Vec3 α) = hi at hbox
  have elx : rest.foldl (fun m v => min v.x m) v0.x = lo.x := by rw [← hlo]
  have ely : rest.foldl (fun m v => min v.y m) v0.y = lo.y := by rw [← hlo]
  have elz : rest.foldl (fun m v => min v.z m) v0.z = lo.z := by rw [← hlo]
  have ehx : rest.foldl (fun m v => max v.x m) v0.x = hi.x := by rw [← hhi]
  have ehy : rest.foldl (fun m v => max v.y m) v0.y = hi.y := by rw [← hhi]
  have ehz : rest.foldl (fun m v => max v.z m) v0.z = hi.z := by rw [← hhi]
  rw [elx] at hxlo hxlo2
  rw [ely] at hylo hylo2
  rw [elz] at hzlo hzlo2
  rw [ehx] at hxhi hxhi2
  rw [ehy] at hyhi hyhi2
  rw [ehz] at hzhi hzhi2
  rw [hbox] at hpos ⊢
  rw [largestExtent_fin] at hpos
  have hL : 0 < max (hi.x - lo.x) (max (hi.y - lo.y) (hi.z - lo.z)) := by
    simpa [Ext.lt] using hpos
  generalize hLdef : max (hi.x - lo.x) (max (hi.y - lo.y) (hi.z - lo.z)) = L at hL
  have hex : hi.x - lo.x ≤ L := by rw [← hLdef]; exact le_max_left _ _
  have hey : hi.y - lo.y ≤ L := by
    rw [← hLdef]; exact le_trans (le_max_left _ _) (le_max_right _ _)
  have hez : hi.z - lo.z ≤ L := by
    rw [← hLdef]; exact le_trans (le_max_right _ _) (le_max_right _ _)
  have hLne : max (hi.x - lo.x) (max (hi.y - lo.y) (hi.z - lo.z)) ≠ 0 := by
    rw [hLdef]; exact ne_of_gt hL
  have hpoint : ∀ v : Vec3 α, normalizePoint ⟨finVec lo, finVec hi⟩ (finVec v)
      = finVec ⟨normalizeCoord lo.x hi.x L v.x, normalizeCoord lo.y hi.y L v.y,
          normalizeCoord lo.z hi.z L v.z⟩ := by
    intro v
    rw [normalizePoint_fin lo hi v hLne, hLdef]
  have horigin : aabbOrigin (⟨finVec lo, finVec hi⟩ : AABB α)
      = finVec ⟨(hi.x + lo.x) * (1 / 2), (hi.y + lo.y) * (1 / 2),
          (hi.z + lo.z) * (1 / 2)⟩ := by
    simp only [aabbOrigin, aiAdd, aiScale, finVec, ext_add_fin, ext_mul_fin]
  refine ⟨lo, hi, L, rfl, ?_, ?_, hL, hLdef.symm, ?_, horigin, ?_, ?_, ?_, ?_, ?_, ?_, ?_⟩
  · intro v hv
    exact ⟨⟨hxlo v hv, hxhi v hv⟩, ⟨hylo v hv, hyhi v hv⟩, ⟨hzlo v hv, hzhi v hv⟩⟩
  · rw [largestExtent_fin, hLdef]
  · unfold aabbScale
    rw [largestExtent_fin, ext_div_fin _ hLne, hLdef]
  · rw [horigin, hpoint]
    simp only [normalizeCoord_centre]
  · unfold normalizedVertices
    rw [hbox, List.map_map]
    apply List.map_congr_left
    intro v _
    exact hpoint v
  · intro v hv
    exact ⟨normalizeCoord_bounds hL hex (hxlo v hv) (hxhi v hv),
      normalizeCoord_bounds hL hey (hylo v hv) (hyhi v hv),
      normalizeCoord_bounds hL hez (hzlo v hv) (hzhi v hv)⟩
  · rw [← hLdef]
    rcases max_choice (hi.x - lo.x) (max (hi.y - lo.y) (hi.z - lo.z)) with h | h
    · exact Or.inl h.symm
    · rw [h]
      rcases max_choice (hi.y - lo.y) (hi.z - lo.z) with h2 | h2
      · exact Or.inr (Or.inl h2.symm)
      · exact Or.inr (Or.inr h2.symm)
  · intro h
    obtain ⟨a, ha, ha2⟩ := hxlo2
    obtain ⟨b, hb, hb2⟩ := hxhi2
    exact ⟨⟨a, ha, by rw [ha2]; exact (normalizeCoord_ends hL h).1⟩,
      ⟨b, hb, by rw [hb2]; exact (normalizeCoord_ends hL h).2⟩⟩
  · intro h
    obtain ⟨a, ha, ha2⟩ := hylo2
    obtain ⟨b, hb, hb2⟩ := hyhi2
    exact ⟨⟨a, ha, by rw [ha2]; exact (normalizeCoord_ends hL h).1⟩,
      ⟨b, hb, by rw [hb2]; exact (normalizeCoord_ends hL h).2⟩⟩
  · intro h
    obtain ⟨a, ha, ha2⟩ := hzlo2
    obtain ⟨b, hb, hb2⟩ := hzhi2
    exact ⟨⟨a, ha, by rw [ha2]; exact (normalizeCoord_ends hL h).1⟩,
      ⟨b, hb, by rw [hb2]; exact (normalizeCoord_ends hL h).2⟩⟩

end NormalizerTheorems
section NormalizerWitness

/-- Witness for C11: the two vertices `(0, 0, 0)` and `(2, 1, 1)`. -/
theorem normalization_fits_unit_cube_witness :
    ([⟨0, 0, 0⟩, ⟨2, 1, 1⟩] : List (Vec3 ℚ)) ≠ [] ∧
    Ext.lt (Ext.fin 0)
      (largestExtent (computeAABB (([⟨0, 0, 0⟩, ⟨2, 1, 1⟩] : List (Vec3 ℚ)).map finVec)))
      = true ∧
    ∃ lo hi : Vec3 ℚ, ∃ L : ℚ,
      computeAABB (([⟨0, 0, 0⟩, ⟨2, 1, 1⟩] : List (Vec3 ℚ)).map finVec)
        = ⟨finVec lo, finVec hi⟩ ∧
      0 < L ∧
      aabbScale (computeAABB (([⟨0, 0, 0⟩, ⟨2, 1, 1⟩] : List (Vec3 ℚ)).map finVec))
        = Ext.fin (4 / 5 / L) := by
  have hpos : Ext.lt (Ext.fin 0)
      (largestExtent (computeAABB (([⟨0, 0, 0⟩, ⟨2, 1, 1⟩] : List (Vec3 ℚ)).map finVec)))
      = true := by
    rw [computeAABB_cons, largestExtent_fin]
    simp [Ext.lt]
  obtain ⟨lo, hi, L, h1, _, _, hL, _, h6, _⟩ :=
    normalization_fits_unit_cube ([⟨0, 0, 0⟩, ⟨2, 1, 1⟩] : List (Vec3 ℚ)) (by simp) hpos
  exact ⟨by simp, hpos, lo, hi, L, h1, hL, h6⟩

end NormalizerWitness

section EmptyMesh

variable {α : Type} [LinearOrderedField α]

/-- C12 (amended): normalising a mesh whose vertex set is empty raises no error:
`computeAABB` returns the box with `min = (+inf, +inf, +inf)` and
`max = (-inf, -inf, -inf)`, the centre computed from it is NaN, the largest extent is
`-inf`, the scale factor is `0.8 / -inf = 0`, and the list of normalised vertices is
empty. -/
theorem normalization_of_empty_mesh :
    computeAABB ([] : List (Vec3 (Ext α)))
      = ⟨⟨Ext.posInf, Ext.posInf, Ext.posInf⟩, ⟨Ext.negInf, Ext.negInf, Ext.negInf⟩⟩ ∧
    aabbOrigin (computeAABB ([] : List (Vec3 (Ext α)))) = ⟨Ext.nan, Ext.nan, Ext.nan⟩ ∧
    largestExtent (computeAABB ([] : List (Vec3 (Ext α)))) = Ext.negInf ∧
    aabbScale (computeAABB ([] : List (Vec3 (Ext α)))) = Ext.fin 0 ∧
    normalizedVertices ([] : List (Vec3 (Ext α))) = [] := by
  have hbox : computeAABB ([] : List (Vec3 (Ext α)))
      = ⟨⟨Ext.posInf, Ext.posInf, Ext.posInf⟩, ⟨Ext.negInf, Ext.negInf, Ext.negInf⟩⟩ := rfl
  have hext : largestExtent (computeAABB ([] : List (Vec3 (Ext α)))) = Ext.negInf := by
    rw [hbox]
    simp [largestExtent, aabbExtents, aiSub, Ext.sub, Ext.neg, Ext.add, Ext.stdMax, Ext.lt]
  refine ⟨hbox, ?_, hext, ?_, rfl⟩
  · rw [hbox]
    simp [aabbOrigin, aiAdd, aiScale, Ext.add, Ext.mul]
  · unfold aabbScale
    rw [hext]
    simp [Ext.div]

/-- C12, counterexample: for the empty vertex set a bounding box and a scale factor are
produced, the box `min = (+inf, +inf, +inf)`, `max = (-inf, -inf, -inf)` and the scale
factor `0`. -/
theorem empty_mesh_has_box_and_scale :
    computeAABB ([] : List (Vec3 (Ext ℚ)))
      = ⟨⟨Ext.posInf, Ext.posInf, Ext.posInf⟩, ⟨Ext.negInf, Ext.negInf, Ext.negInf⟩⟩ ∧
    aabbScale (computeAABB ([] : List (Vec3 (Ext ℚ)))) = Ext.fin 0 := by
  have hbox : computeAABB ([] : List (Vec3 (Ext ℚ)))
      = ⟨⟨Ext.posInf, Ext.posInf, Ext.posInf⟩, ⟨Ext.negInf, Ext.negInf, Ext.negInf⟩⟩ := rfl
  refine ⟨hbox, ?_⟩
  unfold aabbScale
  rw [hbox]
  simp [largestExtent, aabbExtents, aiSub, Ext.sub, Ext.neg, Ext.add, Ext.stdMax, Ext.lt,
    Ext.div]

end EmptyMesh

/-! ## The control flow of `main` -/

theorem parsedSize_default {env : Env} {args : List String}
    (h : (getCmdOption args "--size").length = 0) : parsedSize env args = 64 := by
  unfold parsedSize
  rw [if_neg (by omega)]

theorem parsedSize_parsed {env : Env} {args : List String} {n : Int}
    (h : 0 < (getCmdOption args "--size").length)
    (hn : env.stoi (getCmdOption args "--size") = some n) : parsedSize env args = n := by
  unfold parsedSize
  rw [if_pos h, hn]
  rfl

/-- The possible outcomes of the stage that follows the checks of the command line. -/
theorem generate_cases (ndebug : Bool) (env : Env) (args : List String) :
    generate ndebug env args = ⟨Ending.exited 5, FileEffect.truncated⟩ ∨
    generate ndebug env args = ⟨Ending.exited 6, FileEffect.truncated⟩ ∨
    generate ndebug env args = ⟨Ending.assertFailed, FileEffect.truncated⟩ ∨
    generate ndebug env args = ⟨Ending.allocFailed, FileEffect.truncated⟩ ∨
    generate ndebug env args = ⟨Ending.generated (parsedSize env args),
      FileEffect.written (bufferSize (parsedSize env args))⟩ := by
  unfold generate
  cases env.loadScene (getCmdOption args "-i") with
  | none => exact Or.inl rfl
  | some m =>
    simp only
    by_cases c1 : m ≠ 1
    · rw [if_pos c1]; exact Or.inr (Or.inl rfl)
    · rw [if_neg c1]
      by_cases c2 : ndebug = false ∧ env.builderError = true
      · rw [if_pos c2]; exact Or.inr (Or.inr (Or.inl rfl))
      · rw [if_neg c2]
        by_cases c3 : bufferSize (parsedSize env args) < 0
        · rw [if_pos c3]; exact Or.inr (Or.inr (Or.inr (Or.inl rfl)))
        · rw [if_neg c3]; exact Or.inr (Or.inr (Or.inr (Or.inr rfl)))

/-- A run either ends in one of the four early exits, with the output file untouched, or
has opened the output file and then fails the check of line 152 or goes on to the
import. -/
theorem runMain_cases (env : Env) (args : List String) :
    (∃ s : Nat, 1 ≤ s ∧ s ≤ 4 ∧
      runMain env args = ⟨Ending.exited s, FileEffect.untouched⟩) ∨
    (env.openOutput (getCmdOption args "-o") = true ∧
      0 < (getCmdOption args "--size").length ∧ ¬ (2 ≤ parsedSize env args) ∧
      runMain env args = ⟨Ending.assertFailed, FileEffect.truncated⟩) ∨
    (env.openOutput (getCmdOption args "-o") = true ∧
      ((getCmdOption args "--size").length = 0 ∨ 2 ≤ parsedSize env args) ∧
      runMain env args = generate false env args) := by
  unfold runMain runMainWith
  by_cases c1 : args.length = 1 ∨ cmdOptionExists args "-h" = true
      ∨ cmdOptionExists args "--help" = true
  · rw [if_pos c1]; exact Or.inl ⟨1, by decide, by decide, rfl⟩
  rw [if_neg c1]
  by_cases c2 : (getCmdOption args "-i").length = 0
  · rw [if_pos c2]; exact Or.inl ⟨2, by decide, by decide, rfl⟩
  rw [if_neg c2]
  by_cases c3 : (getCmdOption args "-o").length = 0
  · rw [if_pos c3]; exact Or.inl ⟨3, by decide, by decide, rfl⟩
  rw [if_neg c3]
  by_cases c4 : env.openOutput (getCmdOption args "-o") = false
  · rw [if_pos c4]; exact Or.inl ⟨4, by decide, by decide, rfl⟩
  rw [if_neg c4]
  have ho : env.openOutput (getCmdOption args "-o") = true := by simpa using c4
  by_cases c5 : 0 < (getCmdOption args "--size").length ∧ false = false
      ∧ ¬ (2 ≤ parsedSize env args)
  · rw [if_pos c5]; exact Or.inr (Or.inl ⟨ho, c5.1, c5.2.2, rfl⟩)
  · rw [if_neg c5]
    refine Or.inr (Or.inr ⟨ho, ?_, rfl⟩)
    by_cases hs : 0 < (getCmdOption args "--size").length
    · right
      by_contra hc
      exact c5 ⟨hs, rfl, hc⟩
    · left
      omega

theorem failed_size_check {env : Env} {args : List String}
    (hs : 0 < (getCmdOption args "--size").length) (h2 : ¬ (2 ≤ parsedSize env args)) :
    runMain env args = ⟨Ending.assertFailed, FileEffect.truncated⟩ ∨
      ∃ s : Nat, 1 ≤ s ∧ s ≤ 4 ∧
        runMain env args = ⟨Ending.exited s, FileEffect.untouched⟩ := by
  rcases runMain_cases env args with h | ⟨_, _, _, h⟩ | ⟨_, h, _⟩
  · exact Or.inr h
  · exact Or.inl h
  · exfalso
    rcases h with h | h
    · omega
    · exact h2 h

/-- Every run that reaches the voxel loop has passed the check of line 152, or had no
`--size` value to check. -/
theorem generated_resolution {env : Env} {args : List String} {N : Int}
    (h : (runMain env args).ending = Ending.generated N) :
    N = parsedSize env args ∧
      ((getCmdOption args "--size").length = 0 ∨ 2 ≤ parsedSize env args) := by
  rcases runMain_cases env args with ⟨s, _, _, h1⟩ | ⟨_, _, _, h1⟩ | ⟨_, h2, h1⟩
  · rw [h1] at h; simp at h
  · rw [h1] at h; simp at h
  · rw [h1] at h
    rcases generate_cases false env args with h3 | h3 | h3 | h3 | h3
    all_goals rw [h3] at h
    all_goals first
      | (simp at h; done)
      | exact ⟨(Ending.generated.inj h).symm, h2⟩

/-- C13: for every command line, whenever the `--size` value parses to an integer below
2 the run ends before any voxel is computed, in the failed `ASSERT` of line 152 or in
one of the earlier exits with the output file untouched; so every run that reaches the
voxel loop does so with a resolution `N ≥ 2`, which is 64 when `--size` is absent. -/
theorem resolution_at_least_two (env : Env) (args : List String) :
    (∀ N : Int, (runMain env args).ending = Ending.generated N → 2 ≤ N) ∧
    (∀ n : Int, 0 < (getCmdOption args "--size").length →
      env.stoi (getCmdOption args "--size") = some n → n < 2 →
      (runMain env args = ⟨Ending.assertFailed, FileEffect.truncated⟩ ∨
        ∃ s : Nat, 1 ≤ s ∧ s ≤ 4 ∧
          runMain env args = ⟨Ending.exited s, FileEffect.untouched⟩)) ∧
    ((getCmdOption args "--size").length = 0 →
      ∀ N : Int, (runMain env args).ending = Ending.generated N → N = 64) := by
  refine ⟨?_, ?_, ?_⟩
  · intro N h
    obtain ⟨h1, h2⟩ := generated_resolution h
    rcases h2 with h2 | h2
    · rw [h1, parsedSize_default h2]; decide
    · rw [h1]; exact h2
  · intro n hs hn hlt
    have hp := parsedSize_parsed hs hn
    exact failed_size_check hs (by rw [hp]; omega)
  · intro hs N h
    obtain ⟨h1, _⟩ := generated_resolution h
    rw [h1, parsedSize_default hs]

/-- Witness for C13: `--size 1` on a command line that passes the earlier checks. -/
theorem resolution_at_least_two_witness :
    0 < (getCmdOption ["dfgen", "-i", "mesh.obj", "-o", "field.bin", "--size", "1"]
      "--size").length ∧
    (1 : Int) < 2 ∧
    (runMain ⟨fun _ => true, fun _ => some 1, fun _ => some 1, false⟩
        ["dfgen", "-i", "mesh.obj", "-o", "field.bin", "--size", "1"]
        = ⟨Ending.assertFailed, FileEffect.truncated⟩ ∨
      ∃ s : Nat, 1 ≤ s ∧ s ≤ 4 ∧
        runMain ⟨fun _ => true, fun _ => some 1, fun _ => some 1, false⟩
          ["dfgen", "-i", "mesh.obj", "-o", "field.bin", "--size", "1"]
          = ⟨Ending.exited s, FileEffect.untouched⟩) :=
  ⟨by decide, by decide,
    (resolution_at_least_two ⟨fun _ => true, fun _ => some 1, fun _ => some 1, false⟩
      ["dfgen", "-i", "mesh.obj", "-o", "field.bin", "--size", "1"]).2.1 1
      (by decide) rfl (by decide)⟩

/-- The check of line 152 exists only while `ASSERT` is compiled in: built with
`NDEBUG`, the same command line reaches the voxel loop with the resolution 1. -/
theorem size_check_is_an_assertion :
    runMainWith true ⟨fun _ => true, fun _ => some 1, fun _ => some 1, false⟩
      ["dfgen", "-i", "mesh.obj", "-o", "field.bin", "--size", "1"]
      = ⟨Ending.generated 1, FileEffect.written 1⟩ := by
  decide

/-- C14 (amended): every run that ends in a fatal error raised after argument parsing
(import failure, exit status 5; a mesh count other than 1, exit status 6; a failed
`ASSERT`, among them the resolution check) has opened the output file before, which
creates or empties it, and has written no byte to it. -/
theorem fatal_error_leaves_empty_file (env : Env) (args : List String)
    (h : (runMain env args).ending = Ending.exited 5 ∨
      (runMain env args).ending = Ending.exited 6 ∨
      (runMain env args).ending = Ending.assertFailed) :
    (runMain env args).outputFile = FileEffect.truncated ∧
    env.openOutput (getCmdOption args "-o") = true := by
  rcases runMain_cases env args with ⟨s, _, hs4, h1⟩ | ⟨ho, _, _, h1⟩ | ⟨ho, _, h1⟩
  · exfalso
    rw [h1] at h
    simp only [Ending.exited.injEq, reduceCtorEq, or_false] at h
    omega
  · rw [h1]
    exact ⟨rfl, ho⟩
  · rw [h1] at h ⊢
    refine ⟨?_, ho⟩
    rcases generate_cases false env args with h3 | h3 | h3 | h3 | h3
    all_goals rw [h3] at h ⊢
    · simp at h

/-- Witness for C14 (amended): a run whose import fails. -/
theorem fatal_error_leaves_empty_file_witness :
    ((runMain ⟨fun _ => true, fun _ => none, fun _ => none, false⟩
        ["dfgen", "-i", "mesh.obj", "-o", "field.bin"]).ending = Ending.exited 5 ∨
      (runMain ⟨fun _ => true, fun _ => none, fun _ => none, false⟩
        ["dfgen", "-i", "mesh.obj", "-o", "field.bin"]).ending = Ending.exited 6 ∨
      (runMain ⟨fun _ => true, fun _ => none, fun _ => none, false⟩
        ["dfgen", "-i", "mesh.obj", "-o", "field.bin"]).ending = Ending.assertFailed) ∧
    (runMain ⟨fun _ => true, fun _ => none, fun _ => none, false⟩
      ["dfgen", "-i", "mesh.obj", "-o", "field.bin"]).outputFile = FileEffect.truncated :=
  ⟨Or.inl (by decide),
    (fatal_error_leaves_empty_file ⟨fun _ => true, fun _ => none, fun _ => none, false⟩
      ["dfgen", "-i", "mesh.obj", "-o", "field.bin"] (Or.inl (by decide))).1⟩

/-- C14, counterexample: with an output path that can be opened and an input the
importer rejects, `dfgen -i mesh.obj -o field.bin` ends in the fatal import error (exit
status 5) after the output file has been opened for writing, so the file has been
created, or emptied if it existed. -/
theorem import_failure_truncates_output :
    runMain ⟨fun _ => true, fun _ => none, fun _ => none, false⟩
      ["dfgen", "-i", "mesh.obj", "-o", "field.bin"]
      = ⟨Ending.exited 5, FileEffect.truncated⟩ ∧
    FileEffect.truncated ≠ FileEffect.untouched := by
  decide

end DistanceFieldGen
